import Mathlib

set_option autoImplicit false

/-!
Verification of the grid-placement core of a puzzle-generator web app
(word search, crossword, bingo).  The TypeScript source is shallowly
embedded: grids (`string[][]` resp. `(string | null)[][]`, square, each
cell holding one letter or the empty/blocked marker) become
`List (List (Option Char))`; words become `List Char`; the synchronous
`Math.random()` draws are externalized as explicit parameters (a list of
attempted direction/anchor draws for the word-search retry loop, a list
of index draws for the Fisher-Yates shuffle, a function from cell
coordinates to a draw for the random-letter fill), so every theorem
quantifies over all possible random outcomes.  Fallible code
(`throw new Error`) returns `Except`.
-/

namespace TheBitList

/-- A grid cell: `none` is the empty cell (word search `""`, crossword
`null`), `some ch` a single letter. -/
abbrev Cell := Option Char

/-- A grid, row major: `grid[r][c]`. -/
abbrev Grid := List (List Cell)

/-- `grid[r][c]` at `Nat` indices, `none` when the index is outside the
nested-array structure. -/
def gridGet? {α : Type} (g : List (List α)) (r c : Nat) : Option α :=
  g[r]?.bind (fun row => row[c]?)

/-- `grid[r][c] = v` at `Nat` indices; like a JavaScript in-bounds array
write it changes exactly the addressed slot (out-of-structure writes are
dropped; the code under verification only writes guarded, in-bounds
positions). -/
def gridSet {α : Type} (g : List (List α)) (r c : Nat) (v : α) : List (List α) :=
  match g[r]? with
  | none => g
  | some row => g.set r (row.set c v)

/-- Read a letter cell at `Nat` indices. -/
def getCellN (g : Grid) (r c : Nat) : Cell :=
  (gridGet? g r c).join

/-- Read a letter cell at `Int` indices (negative indices read nothing,
matching the bounds guards in the source). -/
def getCell (g : Grid) (r c : Int) : Cell :=
  if r < 0 ∨ c < 0 then none else getCellN g r.toNat c.toNat

/-- Write a letter cell at `Int` indices. -/
def setCell (g : Grid) (r c : Int) (v : Cell) : Grid :=
  if r < 0 ∨ c < 0 then g else gridSet g r.toNat c.toNat v

/-- The data model's invariant: the grid is a square 2-D array. -/
def Square (g : Grid) : Prop :=
  ∀ row ∈ g, row.length = g.length

/-- `String.prototype.trim`, on the character list of a word. -/
def trimChars (w : List Char) : List Char :=
  ((w.dropWhile Char.isWhitespace).reverse.dropWhile Char.isWhitespace).reverse

/-- The per-letter write loop shared by the word-search `placeWord`
(`grid[row + dx*i][col + dy*i] = word[i]`) and the crossword
`tryPlaceWord` / first-word seeding (fixed row or column): write the
letters of `w` starting at `(r, c)`, stepping by `(dx, dy)`. -/
def commitWord : Grid → List Char → Int → Int → Int → Int → Grid
  | g, [], _, _, _, _ => g
  | g, ch :: rest, r, c, dx, dy => commitWord (setCell g r c (some ch)) rest (r + dx) (c + dy) dx dy

/-- Swap two positions of a list (the body of the Fisher-Yates loop,
`[copy[i], copy[j]] = [copy[j], copy[i]]`). -/
def swapAt {α : Type} (l : List α) (i j : Nat) : List α :=
  match l[i]?, l[j]? with
  | some a, some b => (l.set i b).set j a
  | _, _ => l

/-- The Fisher-Yates loop of `shuffleArray`: `for (i = n-1; i > 0; i--)`
swap index `i` with a random index `j ∈ [0, i]`.  The random draws are
the list `js`; each raw draw is reduced mod `i + 1`, which reaches
exactly the values `Math.floor(Math.random() * (i + 1))` can take. -/
def fyLoop {α : Type} : List α → Nat → List Nat → List α
  | l, 0, _ => l
  | l, _ + 1, [] => l
  | l, i + 1, j :: js => fyLoop (swapAt l (i + 1) (j % (i + 2))) i js

/-- `shuffleArray` (identical helper in the crossword and bingo pages). -/
def shuffleArray {α : Type} (l : List α) (js : List Nat) : List α :=
  fyLoop l (l.length - 1) js

namespace WordSearch

/-- `createEmptyGrid(size)`: a `size × size` grid of empty cells. -/
def createEmptyGrid (size : Nat) : Grid :=
  List.replicate size (List.replicate size none)

/-- The alphabet string of `randomLetter`. -/
def alphabet : List Char :=
  ['A', 'B', 'C', 'D', 'E', 'F', 'G', 'H', 'I', 'J', 'K', 'L', 'M',
   'N', 'O', 'P', 'Q', 'R', 'S', 'T', 'U', 'V', 'W', 'X', 'Y', 'Z']

/-- `randomLetter()`: `alphabet[Math.floor(Math.random() * 26)]`, the
draw externalized as a natural number reduced mod 26. -/
def randomLetter (n : Nat) : Char :=
  alphabet.getD (n % 26) 'A'

/-- The check loop of `canPlaceWord`, at loop counter `i` with the
letters from position `i` on still to check: the cell
`(row + dx*i, col + dy*i)` must be in bounds (checked first) and empty
or equal to the current letter, else return `false` at once. -/
def canPlaceAux (g : Grid) (row col dx dy : Int) : List Char → Nat → Bool
  | [], _ => true
  | ch :: rest, i =>
    let r := row + dx * i
    let c := col + dy * i
    if r < 0 ∨ (g.length : Int) ≤ r ∨ c < 0 ∨ (g.length : Int) ≤ c then false
    else if getCell g r c ≠ none ∧ getCell g r c ≠ some ch then false
    else canPlaceAux g row col dx dy rest (i + 1)

/-- `canPlaceWord(grid, word, row, col, dx, dy)`. -/
def canPlaceWord (g : Grid) (word : List Char) (row col dx dy : Int) : Bool :=
  canPlaceAux g row col dx dy word 0

/-- One random attempt of the `placeWord` retry loop: the drawn
direction `directions[Math.floor(Math.random() * directions.length)]`
and the drawn anchor `(row, col)`. -/
abbrev Attempt := (Int × Int) × Int × Int

/-- The retry loop of `placeWord`: for each attempt in turn, test the
drawn direction and anchor with `canPlaceWord`; on the first success
write all letters and return `true`, after the last attempt return
`false`.  The source's budget of 200 attempts is the length of the
attempt list. -/
def placeLoop (g : Grid) (word : List Char) : List Attempt → Grid × Bool
  | [] => (g, false)
  | ((dx, dy), row, col) :: rest =>
    if canPlaceWord g word row col dx dy then (commitWord g word row col dx dy, true)
    else placeLoop g word rest

/-- `placeWord(grid, word, directions)`: fail immediately when the
direction set is empty, else run the retry loop. -/
def placeWord (g : Grid) (word : List Char) (directions : List (Int × Int))
    (attempts : List Attempt) : Grid × Bool :=
  if directions.isEmpty then (g, false) else placeLoop g word attempts

/-- The direction toggles of the word-search form. -/
structure DirectionOptions where
  horizontal : Bool
  vertical : Bool
  diagonal : Bool
  backwards : Bool

/-- `buildDirections(options)`. -/
def buildDirections (o : DirectionOptions) : List (Int × Int) :=
  (if o.horizontal then [((0 : Int), (1 : Int))] ++ (if o.backwards then [(0, -1)] else []) else []) ++
  (if o.vertical then [(1, 0)] ++ (if o.backwards then [(-1, 0)] else []) else []) ++
  (if o.diagonal then [(1, 1), (1, -1)] ++ (if o.backwards then [(-1, 1), (-1, -1)] else []) else [])

/-- The eight direction vectors `buildDirections` can ever emit. -/
def allDirections : List (Int × Int) :=
  [(0, 1), (0, -1), (1, 0), (-1, 0), (1, 1), (1, -1), (-1, 1), (-1, -1)]

/-- The cleaning step of `generatePuzzle`: trim and uppercase each raw
word, drop blanks and words longer than the grid. -/
def cleanWords (raw : List (List Char)) (size : Nat) : List (List Char) :=
  (raw.map (fun w => (trimChars w).map Char.toUpper)).filter
    (fun w => decide (0 < w.length ∧ w.length ≤ size))

/-- `words.forEach(word => placeWord(grid, word, directions))`: each
word consumes its own attempt plan. -/
def placeAll (g : Grid) (dirs : List (Int × Int)) :
    List (List Char) → List (List Attempt) → Grid
  | [], _ => g
  | w :: ws, plans => placeAll (placeWord g w dirs (plans.headD [])).1 dirs ws plans.tail

/-- An index-aware map, used to spell out the final double loop of
`generatePuzzle` cell by cell. -/
def mapWithIdx {α β : Type} (f : Nat → α → β) : Nat → List α → List β
  | _, [] => []
  | i, a :: rest => f i a :: mapWithIdx f (i + 1) rest

/-- The fill loop of `generatePuzzle`: every cell that is still empty
(`if (!grid[r][c])`) receives a random letter, drawn here through
`rand r c`. -/
def fillEmpty (g : Grid) (rand : Nat → Nat → Nat) : Grid :=
  mapWithIdx (fun r row => mapWithIdx (fun c cell =>
    match cell with
    | none => some (randomLetter (rand r c))
    | some ch => some ch) 0 row) 0 g

/-- The grid state of `generatePuzzle` after cleaning and placing all
words, before the random fill. -/
def placedGrid (raw : List (List Char)) (size : Nat) (o : DirectionOptions)
    (plans : List (List Attempt)) : Grid :=
  placeAll (createEmptyGrid size) (buildDirections o) (cleanWords raw size) plans

/-- `generatePuzzle(rawWords, size, directionOptions)`: clean the word
list, place every word on a fresh grid, fill the empty cells with
random letters, and return the grid with the cleaned word list. -/
def generatePuzzle (raw : List (List Char)) (size : Nat) (o : DirectionOptions)
    (plans : List (List Attempt)) (rand : Nat → Nat → Nat) : Grid × List (List Char) :=
  (fillEmpty (placedGrid raw size o plans) rand, cleanWords raw size)

end WordSearch

namespace Crossword

/-- Placement direction of a crossword entry. -/
inductive Direction where
  | across
  | down
deriving DecidableEq, Repr

/-- A crossword entry.  `placed`, `row`, `col`, `direction` are mutated
in place by the source; here the updated entry is returned instead. -/
structure Entry where
  id : Nat
  answer : List Char
  clue : String
  placed : Bool
  row : Option Int := none
  col : Option Int := none
  direction : Option Direction := none
deriving DecidableEq, Repr

instance : Inhabited Entry := ⟨⟨0, [], "", false, none, none, none⟩⟩

/-- A clue record of the numbering pass. -/
structure Clue where
  number : Nat
  clue : String
  answer : List Char
deriving DecidableEq, Repr

/-- The fixed grid size of the crossword page. -/
def GRID_SIZE : Nat := 15

/-- `createEmptyGrid(size)` of the crossword page: all cells `null`. -/
def createEmptyGrid (size : Nat) : Grid :=
  List.replicate size (List.replicate size none)

/-- `createEmptyNumbers(size)`. -/
def createEmptyNumbers (size : Nat) : List (List (Option Nat)) :=
  List.replicate size (List.replicate size none)

/-- The result of `generateCrossword`.  The extra `entries` field models
the in-place mutation of the caller's entry objects. -/
structure CrosswordPuzzle where
  grid : Grid
  numbers : List (List (Option Nat))
  acrossClues : List Clue
  downClues : List Clue
  unused : List Entry
  entries : List Entry
deriving Repr

/-- Stable insertion of an entry into a list sorted descending by
answer length: `a` goes after every strictly longer entry and before
the first entry of equal or smaller length. -/
def insertDesc (a : Entry) : List Entry → List Entry
  | [] => [a]
  | b :: l => if a.answer.length < b.answer.length then b :: insertDesc a l else a :: b :: l

/-- `entries.sort((a, b) => b.answer.length - a.answer.length)`:
JavaScript's `Array.prototype.sort` is a stable sort, modelled here by
a stable insertion sort (descending by answer length). -/
def sortEntries : List Entry → List Entry
  | [] => []
  | a :: l => insertDesc a (sortEntries l)

/-- The content-compatibility loop of `tryPlaceWord`: each cell along
the run starting at `(r, c)` and stepping by `(dx, dy)` must be `null`
or already hold the identical letter (the bounds were checked before
the loop). -/
def fitsRun (g : Grid) : List Char → Int → Int → Int → Int → Bool
  | [], _, _, _, _ => true
  | ch :: rest, r, c, dx, dy =>
    if getCell g r c ≠ none ∧ getCell g r c ≠ some ch then false
    else fitsRun g rest (r + dx) (c + dy) dx dy

/-- `tryPlaceWord(grid, entry, row, col, direction, indexInWord)`: align
`word[indexInWord]` with the cell `(row, col)`, check bounds of the
whole run, check letter compatibility, and on success write the letters
and report the resolved start position and direction. -/
def tryPlaceWord (g : Grid) (word : List Char) (row col : Int) (dir : Direction)
    (indexInWord : Nat) : Option (Grid × Int × Int × Direction) :=
  let size : Int := g.length
  let len : Int := word.length
  if word.isEmpty then none
  else
    match dir with
    | Direction.across =>
      let startCol := col - indexInWord
      let endCol := startCol + len - 1
      if startCol < 0 ∨ size ≤ endCol then none
      else if fitsRun g word row startCol 0 1 then
        some (commitWord g word row startCol 0 1, row, startCol, Direction.across)
      else none
    | Direction.down =>
      let startRow := row - indexInWord
      let endRow := startRow + len - 1
      if startRow < 0 ∨ size ≤ endRow then none
      else if fitsRun g word startRow col 1 0 then
        some (commitWord g word startRow col 1 0, startRow, col, Direction.down)
      else none

/-- The row-major scan order of a `size × size` grid. -/
def rowMajor (size : Nat) : List (Nat × Nat) :=
  (List.range size).flatMap (fun r => (List.range size).map (fun c => (r, c)))

/-- The intersection candidates of the placement loop, in scan order:
letter index `wi` of the word (outer loop), then the grid cell `(r, c)`
row major. -/
def candidates (size len : Nat) : List (Nat × Nat × Nat) :=
  (List.range len).flatMap (fun wi => (rowMajor size).map (fun p => (wi, p.1, p.2)))

/-- The crossing search of `generateCrossword` for one entry: at the
first candidate whose grid cell already holds the matching letter, try
across, then down; the first success stops the whole scan. -/
def scanCandidates (g : Grid) (word : List Char) :
    List (Nat × Nat × Nat) → Option (Grid × Int × Int × Direction)
  | [] => none
  | (wi, r, c) :: rest =>
    match word[wi]? with
    | none => scanCandidates g word rest
    | some ch =>
      if getCellN g r c = some ch then
        match tryPlaceWord g word r c Direction.across wi with
        | some res => some res
        | none =>
          match tryPlaceWord g word r c Direction.down wi with
          | some res => some res
          | none => scanCandidates g word rest
      else scanCandidates g word rest

/-- One iteration of the remaining-entries loop: skip entries with an
empty answer (`if (!word) continue`), otherwise run the crossing search
and, on success, record the resolved position on the entry. -/
def placeEntry (g : Grid) (e : Entry) : Grid × Entry :=
  if e.answer.isEmpty then (g, e)
  else
    match scanCandidates g e.answer (candidates g.length e.answer.length) with
    | some (g2, r, c, d) =>
      (g2, { e with placed := true, row := some r, col := some c, direction := some d })
    | none => (g, e)

/-- `for (idx = 1; idx < sortedEntries.length; idx++)`: thread the grid
through the per-entry placement, returning the updated entries. -/
def placeRest (g : Grid) : List Entry → Grid × List Entry
  | [] => (g, [])
  | e :: rest =>
    let p := placeEntry g e
    let q := placeRest p.1 rest
    (q.1, p.2 :: q.2)

/-- `startsAcross` of the numbering pass: no filled cell to the left
(`c === 0 || grid[r][c-1] === null`) and a filled cell to the right. -/
def startsAcrossB (g : Grid) (r c : Nat) : Bool :=
  (decide (c = 0) || decide (getCellN g r (c - 1) = none)) &&
  (decide (c + 1 < g.length) && decide (getCellN g r (c + 1) ≠ none))

/-- `startsDown` of the numbering pass: no filled cell above and a
filled cell below. -/
def startsDownB (g : Grid) (r c : Nat) : Bool :=
  (decide (r = 0) || decide (getCellN g (r - 1) c = none)) &&
  (decide (r + 1 < g.length) && decide (getCellN g (r + 1) c ≠ none))

/-- The loop state of `numberAndBuildClues`: the numbers grid, the two
clue lists, and the running `clueNumber`. -/
structure NumState where
  numbers : List (List (Option Nat))
  acrossClues : List Clue
  downClues : List Clue
  k : Nat
deriving Repr

/-- The `entries.find(...)` call of the numbering pass. -/
def findClueEntry (entries : List Entry) (r c : Nat) (d : Direction) : Option Entry :=
  entries.find? (fun e =>
    e.placed && decide (e.row = some (r : Int)) && decide (e.col = some (c : Int)) &&
    decide (e.direction = some d))

/-- The row-major scan of `numberAndBuildClues`: skip empty cells
(`if (!cell) continue`); when the cell starts an across or a down entry
assign the next `clueNumber` to it (incrementing once even if both
start there), and emit a clue record for each matching placed entry. -/
def numberClueLoop (g : Grid) (entries : List Entry) :
    List (Nat × Nat) → NumState → NumState
  | [], st => st
  | (r, c) :: rest, st =>
    if getCellN g r c = none then numberClueLoop g entries rest st
    else
      let sA := startsAcrossB g r c
      let sD := startsDownB g r c
      if sA || sD then
        let nums := gridSet st.numbers r c (some st.k)
        let ac :=
          if sA then
            match findClueEntry entries r c Direction.across with
            | some e => st.acrossClues ++ [⟨st.k, e.clue, e.answer⟩]
            | none => st.acrossClues
          else st.acrossClues
        let dn :=
          if sD then
            match findClueEntry entries r c Direction.down with
            | some e => st.downClues ++ [⟨st.k, e.clue, e.answer⟩]
            | none => st.downClues
          else st.downClues
        numberClueLoop g entries rest ⟨nums, ac, dn, st.k + 1⟩
      else numberClueLoop g entries rest st

/-- `numberAndBuildClues(grid, entries)`. -/
def numberAndBuildClues (g : Grid) (entries : List Entry) : NumState :=
  numberClueLoop g entries (rowMajor g.length) ⟨createEmptyNumbers g.length, [], [], 1⟩


/-- Number-grid read, joining the missing and empty cases like
`getCellN`. -/
def getNumN (ns : List (List (Option Nat))) (r c : Nat) : Option Nat :=
  (gridGet? ns r c).join

/-- Proof-side view of the numbering condition at one scan position:
the cell is filled and starts an across or a down entry. -/
def cellStarts (g : Grid) (p : Nat × Nat) : Bool :=
  !(decide (getCellN g p.1 p.2 = none)) &&
    (startsAcrossB g p.1 p.2 || startsDownB g p.1 p.2)

/-- Proof-side view of the number assignments the scan makes from
counter `k` on, in scan order. -/
def numAssign (g : Grid) : List (Nat × Nat) → Nat → List ((Nat × Nat) × Nat)
  | [], _ => []
  | p :: rest, k =>
    if cellStarts g p then (p, k) :: numAssign g rest (k + 1) else numAssign g rest k

/-- Association-list lookup of a position. -/
def lookupPos : List ((Nat × Nat) × Nat) → Nat × Nat → Option Nat
  | [], _ => none
  | (q, n) :: rest, p => if q = p then some n else lookupPos rest p

/-- `generateCrossword(entriesInput)`: shuffle, sort descending by
length, seed the first entry horizontally centered on the middle row,
place the rest by crossing search, then number and build clues.  The
shuffle draws are the list `js`. -/
def generateCrossword (entriesInput : List Entry) (js : List Nat) : CrosswordPuzzle :=
  let size := GRID_SIZE
  let grid0 := createEmptyGrid size
  let sortedEntries := sortEntries (shuffleArray entriesInput js)
  match sortedEntries with
  | [] => ⟨grid0, createEmptyNumbers size, [], [], [], []⟩
  | first :: rest =>
    let midRow : Int := (size / 2 : Nat)
    let firstStartCol : Int := max 0 (Int.fdiv ((size : Int) - first.answer.length) 2)
    let grid1 := commitWord grid0 first.answer midRow firstStartCol 0 1
    let first2 := { first with placed := true, row := some midRow, col := some firstStartCol,
                               direction := some Direction.across }
    let pr := placeRest grid1 rest
    let allEntries := first2 :: pr.2
    let st := numberAndBuildClues pr.1 allEntries
    ⟨pr.1, st.numbers, st.acrossClues, st.downClues,
      allEntries.filter (fun e => !e.placed), allEntries⟩

end Crossword

namespace Bingo

/-- A bingo card: a 5 × 5 grid of word strings (as character lists). -/
abbrev BingoGrid := List (List (List Char))

/-- The literal FREE marker of the center cell. -/
def freeCell : List Char := ['F', 'R', 'E', 'E']

/-- The error message thrown when the pool is too small
(`neededWords` = 24 interpolated). -/
def tooFewWordsMsg : String :=
  "You need at least 24 words for a 5×5 card (center is FREE)."

/-- The cleaning step of `generateBingoGrid`: trim each raw word and
drop blanks. -/
def cleanedBingoWords (raw : List (List Char)) : List (List Char) :=
  (raw.map trimChars).filter (fun w => decide (0 < w.length))

/-- The `r`/`c` fill loop of `generateBingoGrid`, flattened row major:
the center cell `(2, 2)` receives the FREE marker, every other cell
consumes `selected[wordIndex]` and advances `wordIndex`. -/
def bingoFill (selected : List (List Char)) :
    List (Nat × Nat) → Nat → List (List Char)
  | [], _ => []
  | (r, c) :: rest, wordIndex =>
    if r = 2 ∧ c = 2 then freeCell :: bingoFill selected rest wordIndex
    else selected.getD wordIndex [] :: bingoFill selected rest (wordIndex + 1)

/-- Chunk the 25 row-major cell values back into the five grid rows. -/
def toRows (l : List (List Char)) : BingoGrid :=
  [l.take 5, (l.drop 5).take 5, (l.drop 10).take 5, (l.drop 15).take 5, (l.drop 20).take 5]

/-- `generateBingoGrid(rawWords)` with `SIZE = 5`, a free center and
`neededWords = 25 - 1 = 24`: throw when the cleaned pool is too small,
else shuffle the full pool, take the first 24 and fill the grid row
major, skipping the fixed FREE center.  The shuffle draws are `js`. -/
def generateBingoGrid (raw : List (List Char)) (js : List Nat) : Except String BingoGrid :=
  let neededWords := 5 * 5 - 1
  let cleanedWords := cleanedBingoWords raw
  if cleanedWords.length < neededWords then
    Except.error tooFewWordsMsg
  else
    let shuffled := shuffleArray cleanedWords js
    let selected := shuffled.take neededWords
    Except.ok (toRows (bingoFill selected (Crossword.rowMajor 5) 0))

end Bingo

/-! ### Grid access lemmas -/

theorem gridGet?_gridSet_eq {α : Type} (g : List (List α)) (r c : Nat) (v : α) :
    gridGet? (gridSet g r c v) r c = (gridGet? g r c).map (fun _ => v) := by
  unfold gridSet gridGet?
  cases hr : g[r]? with
  | none => simp [hr]
  | some row =>
    have hrlen : r < g.length := by
      rcases List.getElem?_eq_some.mp hr with ⟨h, _⟩
      exact h
    rw [List.getElem?_set_self hrlen]
    simp only [Option.some_bind]
    by_cases hc : c < row.length
    · rw [List.getElem?_set_self hc, List.getElem?_eq_getElem hc]
      rfl
    · have h1 : row[c]? = none := List.getElem?_eq_none (Nat.le_of_not_lt hc)
      have h2 : (row.set c v)[c]? = none := by
        apply List.getElem?_eq_none
        simpa using Nat.le_of_not_lt hc
      simp [h1, h2]

theorem gridGet?_gridSet_ne {α : Type} (g : List (List α)) {r c r2 c2 : Nat} (v : α)
    (h : ¬(r = r2 ∧ c = c2)) :
    gridGet? (gridSet g r c v) r2 c2 = gridGet? g r2 c2 := by
  unfold gridSet gridGet?
  cases hr : g[r]? with
  | none => rfl
  | some row =>
    by_cases hrr : r = r2
    · subst hrr
      have hc : c ≠ c2 := fun hcc => h ⟨rfl, hcc⟩
      have hrlen : r < g.length := by
        rcases List.getElem?_eq_some.mp hr with ⟨hh, _⟩
        exact hh
      rw [List.getElem?_set_self hrlen, hr]
      simp [List.getElem?_set_ne hc]
    · rw [List.getElem?_set_ne hrr]

theorem length_gridSet {α : Type} (g : List (List α)) (r c : Nat) (v : α) :
    (gridSet g r c v).length = g.length := by
  unfold gridSet
  cases g[r]? <;> simp

theorem square_gridSet {g : Grid} (hsq : Square g) (r c : Nat) (v : Cell) :
    Square (gridSet g r c v) := by
  intro row2 hmem
  rw [length_gridSet]
  unfold gridSet at hmem
  cases hr : g[r]? with
  | none => rw [hr] at hmem; exact hsq row2 hmem
  | some row =>
    rw [hr] at hmem
    rcases List.mem_or_eq_of_mem_set hmem with h | h
    · exact hsq row2 h
    · subst h
      rw [List.length_set]
      rcases List.getElem?_eq_some.mp hr with ⟨hh, he⟩
      exact hsq row (by rw [← he]; exact List.getElem_mem hh)

theorem getCell_natCast (g : Grid) (r c : Nat) :
    getCell g (r : Int) (c : Int) = getCellN g r c := by
  simp [getCell]

theorem getCell_setCell_ne (g : Grid) {r c p q : Int} (v : Cell)
    (h : ¬(p = r ∧ q = c)) :
    getCell (setCell g r c v) p q = getCell g p q := by
  unfold setCell
  by_cases hrc : r < 0 ∨ c < 0
  · simp [hrc]
  · simp only [hrc, if_false]
    unfold getCell
    by_cases hpq : p < 0 ∨ q < 0
    · simp [hpq]
    · simp only [hpq, if_false]
      unfold getCellN
      rw [gridGet?_gridSet_ne]
      intro ⟨h1, h2⟩
      exact h ⟨by omega, by omega⟩

theorem getCell_setCell_of_mem (g : Grid) {r c : Int} {x : Char} (v : Cell)
    (h : getCell g r c = some x) :
    getCell (setCell g r c v) r c = v := by
  unfold getCell setCell at *
  by_cases hrc : r < 0 ∨ c < 0
  · simp [hrc] at h
  · simp only [hrc, if_false] at h ⊢
    unfold getCellN at h ⊢
    rw [gridGet?_gridSet_eq]
    cases hcell : gridGet? g r.toNat c.toNat with
    | none => rw [hcell] at h; simp at h
    | some cell => simp

theorem gridGet?_isSome_of_square {g : Grid} (hsq : Square g) {r c : Nat}
    (hr : r < g.length) (hc : c < g.length) :
    ∃ cell, gridGet? g r c = some cell := by
  unfold gridGet?
  rw [List.getElem?_eq_getElem hr]
  have hrow : g[r] ∈ g := List.getElem_mem hr
  have hlen : g[r].length = g.length := hsq _ hrow
  refine ⟨(g[r]).get ⟨c, by omega⟩, ?_⟩
  simp [List.getElem?_eq_getElem (show c < g[r].length by omega), List.get_eq_getElem]

theorem getCell_setCell_of_square {g : Grid} (hsq : Square g) {r c : Int} (v : Cell)
    (hr0 : 0 ≤ r) (hr1 : r < (g.length : Int)) (hc0 : 0 ≤ c) (hc1 : c < (g.length : Int)) :
    getCell (setCell g r c v) r c = v := by
  unfold getCell setCell
  have hrc : ¬(r < 0 ∨ c < 0) := by omega
  simp only [hrc, if_false]
  unfold getCellN
  rw [gridGet?_gridSet_eq]
  obtain ⟨cell, hcell⟩ := gridGet?_isSome_of_square hsq
    (show r.toNat < g.length by omega) (show c.toNat < g.length by omega)
  simp [hcell]

theorem length_setCell (g : Grid) (r c : Int) (v : Cell) :
    (setCell g r c v).length = g.length := by
  unfold setCell
  split
  · rfl
  · exact length_gridSet ..

theorem square_setCell {g : Grid} (hsq : Square g) (r c : Int) (v : Cell) :
    Square (setCell g r c v) := by
  unfold setCell
  split
  · exact hsq
  · exact square_gridSet hsq _ _ _

/-! ### commitWord lemmas -/

theorem length_commitWord (w : List Char) (g : Grid) (r c dx dy : Int) :
    (commitWord g w r c dx dy).length = g.length := by
  induction w generalizing g r c with
  | nil => rfl
  | cons ch rest ih => rw [commitWord, ih, length_setCell]

theorem square_commitWord (w : List Char) {g : Grid} (hsq : Square g) (r c dx dy : Int) :
    Square (commitWord g w r c dx dy) := by
  induction w generalizing g r c with
  | nil => exact hsq
  | cons ch rest ih =>
    rw [commitWord]
    exact ih (square_setCell hsq _ _ _) _ _

theorem commitWord_frame (w : List Char) (g : Grid) (r0 c0 dx dy p q : Int)
    (h : ∀ i : Nat, i < w.length → ¬(p = r0 + dx * i ∧ q = c0 + dy * i)) :
    getCell (commitWord g w r0 c0 dx dy) p q = getCell g p q := by
  induction w generalizing g r0 c0 with
  | nil => rfl
  | cons ch rest ih =>
    rw [commitWord, ih]
    · apply getCell_setCell_ne
      have h0 := h 0 (by simp)
      simpa using h0
    · intro i hi hpq
      apply h (i + 1) (by simp only [List.length_cons]; omega)
      push_cast at hpq ⊢
      exact ⟨by linear_combination hpq.1, by linear_combination hpq.2⟩

theorem commitWord_preserves (w : List Char) (g : Grid) (r0 c0 dx dy p q : Int) (x : Char)
    (hmatch : ∀ j : Nat, j < w.length → r0 + dx * j = p → c0 + dy * j = q → w[j]? = some x)
    (hx : getCell g p q = some x) :
    getCell (commitWord g w r0 c0 dx dy) p q = some x := by
  induction w generalizing g r0 c0 with
  | nil => exact hx
  | cons ch rest ih =>
    rw [commitWord]
    apply ih
    · intro j hj h1 h2
      have := hmatch (j + 1) (by simp only [List.length_cons]; omega)
        (by push_cast at h1 ⊢; linear_combination h1)
        (by push_cast at h2 ⊢; linear_combination h2)
      simpa using this
    · by_cases hp : p = r0 ∧ q = c0
      · obtain ⟨rfl, rfl⟩ := hp
        have h0 := hmatch 0 (by simp) (by simp) (by simp)
        rw [getCell_setCell_of_mem g _ hx]
        simpa using h0
      · rw [getCell_setCell_ne g _ hp]
        exact hx

theorem commitWord_getCell (w : List Char) (g : Grid) (r0 c0 dx dy : Int)
    (hsq : Square g)
    (hb : ∀ i : Nat, i < w.length →
      0 ≤ r0 + dx * i ∧ r0 + dx * i < (g.length : Int) ∧
      0 ≤ c0 + dy * i ∧ c0 + dy * i < (g.length : Int))
    (hinj : ∀ i j : Nat, i < w.length → j < w.length → i ≠ j →
      ¬(r0 + dx * i = r0 + dx * j ∧ c0 + dy * i = c0 + dy * j)) :
    ∀ i : Nat, i < w.length →
      getCell (commitWord g w r0 c0 dx dy) (r0 + dx * i) (c0 + dy * i) = w[i]? := by
  induction w generalizing g r0 c0 with
  | nil => intro i hi; simp at hi
  | cons ch rest ih =>
    intro i hi
    match i with
    | 0 =>
      rw [commitWord, commitWord_frame]
      · obtain ⟨hb1, hb2, hb3, hb4⟩ := hb 0 (by simp)
        simp only [Nat.cast_zero, mul_zero, add_zero] at hb1 hb2 hb3 hb4 ⊢
        rw [getCell_setCell_of_square hsq _ hb1 hb2 hb3 hb4]
        simp
      · intro j hj hpq
        apply hinj 0 (j + 1) (by simp) (by simp only [List.length_cons]; omega) (by omega)
        push_cast at hpq ⊢
        exact ⟨by linear_combination hpq.1, by linear_combination hpq.2⟩
    | i2 + 1 =>
      rw [commitWord]
      have hcast1 : r0 + dx * ((i2 : Int) + 1) = (r0 + dx) + dx * i2 := by ring
      have hcast2 : c0 + dy * ((i2 : Int) + 1) = (c0 + dy) + dy * i2 := by ring
      have hres := ih (setCell g r0 c0 (some ch)) (r0 + dx) (c0 + dy)
        (square_setCell hsq _ _ _)
        (fun j hj => by
          have hpos := hb (j + 1) (by simp only [List.length_cons]; omega)
          rw [length_setCell]
          push_cast at hpos ⊢
          have e1 : (r0 + dx) + dx * (j : Int) = r0 + dx * ((j : Int) + 1) := by ring
          have e2 : (c0 + dy) + dy * (j : Int) = c0 + dy * ((j : Int) + 1) := by ring
          rw [e1, e2]
          exact hpos)
        (fun j j2 hj hj2 hne => by
          have hh := hinj (j + 1) (j2 + 1) (by simp only [List.length_cons]; omega)
            (by simp only [List.length_cons]; omega) (by omega)
          intro hpq
          apply hh
          push_cast at hpq ⊢
          exact ⟨by linear_combination hpq.1, by linear_combination hpq.2⟩)
        i2 (by simpa using Nat.lt_of_succ_lt_succ hi)
      push_cast
      rw [hcast1, hcast2]
      simpa using hres

/-! ### Word-search placement lemmas -/

namespace WordSearch

theorem canPlaceAux_iff (g : Grid) (row col dx dy : Int) (w : List Char) (k : Nat) :
    canPlaceAux g row col dx dy w k = true ↔
      ∀ j : Nat, j < w.length →
        (0 ≤ row + dx * (k + j : Int) ∧ row + dx * (k + j : Int) < (g.length : Int) ∧
         0 ≤ col + dy * (k + j : Int) ∧ col + dy * (k + j : Int) < (g.length : Int)) ∧
        (getCell g (row + dx * (k + j : Int)) (col + dy * (k + j : Int)) = none ∨
         getCell g (row + dx * (k + j : Int)) (col + dy * (k + j : Int)) = w[j]?) := by
  induction w generalizing k with
  | nil => simp [canPlaceAux]
  | cons ch rest ih =>
    simp only [canPlaceAux]
    by_cases hb : row + dx * k < 0 ∨ (g.length : Int) ≤ row + dx * k ∨
        col + dy * k < 0 ∨ (g.length : Int) ≤ col + dy * k
    · rw [if_pos hb]
      simp only [Bool.false_eq_true, false_iff]
      intro hall
      have h0 := (hall 0 (by simp)).1
      push_cast at h0
      simp only [add_zero] at h0
      omega
    · rw [if_neg hb]
      by_cases hc : getCell g (row + dx * k) (col + dy * k) ≠ none ∧
          getCell g (row + dx * k) (col + dy * k) ≠ some ch
      · rw [if_pos hc]
        simp only [Bool.false_eq_true, false_iff]
        intro hall
        have h0 := (hall 0 (by simp)).2
        push_cast at h0
        simp only [add_zero, List.getElem?_cons_zero] at h0
        rcases h0 with h0 | h0
        · exact hc.1 h0
        · exact hc.2 h0
      · rw [if_neg hc]
        rw [ih (k + 1)]
        constructor
        · intro hall j hj
          match j with
          | 0 =>
            push_cast
            simp only [add_zero, List.getElem?_cons_zero]
            refine ⟨by omega, ?_⟩
            rcases Decidable.not_and_iff_or_not.mp hc with h | h
            · exact Or.inl (Decidable.not_not.mp h)
            · exact Or.inr (Decidable.not_not.mp h)
          | j2 + 1 =>
            have := hall j2 (by simp only [List.length_cons] at hj; omega)
            push_cast at this ⊢
            simp only [List.getElem?_cons_succ]
            have e1 : row + dx * ((k : Int) + ((j2 : Int) + 1)) =
                row + dx * (((k : Int) + 1) + (j2 : Int)) := by ring
            have e2 : col + dy * ((k : Int) + ((j2 : Int) + 1)) =
                col + dy * (((k : Int) + 1) + (j2 : Int)) := by ring
            rw [e1, e2]
            exact this
        · intro hall j hj
          have := hall (j + 1) (by simp only [List.length_cons]; omega)
          push_cast at this ⊢
          simp only [List.getElem?_cons_succ] at this
          have e1 : row + dx * ((k : Int) + ((j : Int) + 1)) =
              row + dx * (((k : Int) + 1) + (j : Int)) := by ring
          have e2 : col + dy * ((k : Int) + ((j : Int) + 1)) =
              col + dy * (((k : Int) + 1) + (j : Int)) := by ring
          rw [e1, e2] at this
          exact this

theorem canPlaceWord_iff (g : Grid) (w : List Char) (row col dx dy : Int) :
    canPlaceWord g w row col dx dy = true ↔
      ∀ i : Nat, i < w.length →
        (0 ≤ row + dx * i ∧ row + dx * i < (g.length : Int) ∧
         0 ≤ col + dy * i ∧ col + dy * i < (g.length : Int)) ∧
        (getCell g (row + dx * i) (col + dy * i) = none ∨
         getCell g (row + dx * i) (col + dy * i) = w[i]?) := by
  rw [canPlaceWord, canPlaceAux_iff]
  simp

theorem placeLoop_of_false (g : Grid) (w : List Char) (atts : List Attempt)
    (h : (placeLoop g w atts).2 = false) : (placeLoop g w atts).1 = g := by
  induction atts with
  | nil => rfl
  | cons a rest ih =>
    obtain ⟨⟨dx, dy⟩, rw2, cl⟩ := a
    rw [placeLoop] at h ⊢
    by_cases hcan : canPlaceWord g w rw2 cl dx dy = true
    · rw [if_pos hcan] at h; simp at h
    · rw [if_neg hcan] at h ⊢
      exact ih h

theorem placeLoop_of_true (g : Grid) (w : List Char) (atts : List Attempt)
    (h : (placeLoop g w atts).2 = true) :
    ∃ a ∈ atts, canPlaceWord g w a.2.1 a.2.2 a.1.1 a.1.2 = true ∧
      (placeLoop g w atts).1 = commitWord g w a.2.1 a.2.2 a.1.1 a.1.2 := by
  induction atts with
  | nil => simp [placeLoop] at h
  | cons a rest ih =>
    obtain ⟨⟨dx, dy⟩, rw2, cl⟩ := a
    rw [placeLoop] at h ⊢
    by_cases hcan : canPlaceWord g w rw2 cl dx dy = true
    · rw [if_pos hcan]
      exact ⟨((dx, dy), rw2, cl), by simp, hcan, rfl⟩
    · rw [if_neg hcan] at h ⊢
      obtain ⟨a, ha, h1, h2⟩ := ih h
      exact ⟨a, List.mem_cons_of_mem _ ha, h1, h2⟩

theorem placeLoop_preserves (g : Grid) (w : List Char) (atts : List Attempt)
    (p q : Int) (x : Char) (hx : getCell g p q = some x) :
    getCell (placeLoop g w atts).1 p q = some x := by
  induction atts with
  | nil => exact hx
  | cons a rest ih =>
    obtain ⟨⟨dx, dy⟩, rw2, cl⟩ := a
    rw [placeLoop]
    by_cases hcan : canPlaceWord g w rw2 cl dx dy = true
    · rw [if_pos hcan]
      apply commitWord_preserves w g rw2 cl dx dy p q x _ hx
      intro j hj h1 h2
      have hch := ((canPlaceWord_iff g w rw2 cl dx dy).mp hcan j hj).2
      rw [h1, h2] at hch
      rcases hch with hch | hch
      · rw [hx] at hch; simp at hch
      · rw [hx] at hch; exact hch.symm
    · rw [if_neg hcan]
      exact ih

theorem length_placeLoop (g : Grid) (w : List Char) (atts : List Attempt) :
    (placeLoop g w atts).1.length = g.length := by
  induction atts with
  | nil => rfl
  | cons a rest ih =>
    obtain ⟨⟨dx, dy⟩, rw2, cl⟩ := a
    rw [placeLoop]
    by_cases hcan : canPlaceWord g w rw2 cl dx dy = true
    · rw [if_pos hcan]; exact length_commitWord ..
    · rw [if_neg hcan]; exact ih

theorem square_placeLoop (g : Grid) (hsq : Square g) (w : List Char) (atts : List Attempt) :
    Square (placeLoop g w atts).1 := by
  induction atts with
  | nil => exact hsq
  | cons a rest ih =>
    obtain ⟨⟨dx, dy⟩, rw2, cl⟩ := a
    rw [placeLoop]
    by_cases hcan : canPlaceWord g w rw2 cl dx dy = true
    · rw [if_pos hcan]; exact square_commitWord _ hsq _ _ _ _
    · rw [if_neg hcan]; exact ih

theorem length_placeWord (g : Grid) (w : List Char) (dirs : List (Int × Int))
    (atts : List Attempt) : (placeWord g w dirs atts).1.length = g.length := by
  unfold placeWord
  split
  · rfl
  · exact length_placeLoop ..

theorem square_placeWord (g : Grid) (hsq : Square g) (w : List Char)
    (dirs : List (Int × Int)) (atts : List Attempt) : Square (placeWord g w dirs atts).1 := by
  unfold placeWord
  split
  · exact hsq
  · exact square_placeLoop g hsq w atts

theorem placeWord_preserves (g : Grid) (w : List Char) (dirs : List (Int × Int))
    (atts : List Attempt) (p q : Int) (x : Char) (hx : getCell g p q = some x) :
    getCell (placeWord g w dirs atts).1 p q = some x := by
  unfold placeWord
  split
  · exact hx
  · exact placeLoop_preserves g w atts p q x hx

theorem length_placeAll (g : Grid) (dirs : List (Int × Int)) (ws : List (List Char))
    (plans : List (List Attempt)) : (placeAll g dirs ws plans).length = g.length := by
  induction ws generalizing g plans with
  | nil => rfl
  | cons w rest ih => rw [placeAll, ih, length_placeWord]

theorem square_placeAll (g : Grid) (hsq : Square g) (dirs : List (Int × Int))
    (ws : List (List Char)) (plans : List (List Attempt)) :
    Square (placeAll g dirs ws plans) := by
  induction ws generalizing g plans with
  | nil => exact hsq
  | cons w rest ih => exact ih _ (square_placeWord g hsq w dirs _) _

theorem length_mapWithIdx {α β : Type} (f : Nat → α → β) (i : Nat) (l : List α) :
    (mapWithIdx f i l).length = l.length := by
  induction l generalizing i with
  | nil => rfl
  | cons a rest ih => simp [mapWithIdx, ih]

theorem mapWithIdx_getElem? {α β : Type} (f : Nat → α → β) (i n : Nat) (l : List α) :
    (mapWithIdx f i l)[n]? = l[n]?.map (f (i + n)) := by
  induction l generalizing i n with
  | nil => simp [mapWithIdx]
  | cons a rest ih =>
    match n with
    | 0 => simp [mapWithIdx]
    | n2 + 1 =>
      have e : i + 1 + n2 = i + (n2 + 1) := by omega
      simp only [mapWithIdx, List.getElem?_cons_succ, ih (i + 1) n2, e]

theorem length_fillEmpty (g : Grid) (rand : Nat → Nat → Nat) :
    (fillEmpty g rand).length = g.length :=
  length_mapWithIdx ..

theorem gridGet?_fillEmpty (g : Grid) (rand : Nat → Nat → Nat) (r c : Nat) :
    gridGet? (fillEmpty g rand) r c = (gridGet? g r c).map (fun cell =>
      match cell with
      | none => some (randomLetter (rand r c))
      | some ch => some ch) := by
  unfold fillEmpty gridGet?
  rw [mapWithIdx_getElem?]
  simp only [Nat.zero_add]
  cases hr : g[r]? with
  | none => simp
  | some row =>
    simp [mapWithIdx_getElem?]

theorem mem_mapWithIdx {α β : Type} {f : Nat → α → β} {i : Nat} {l : List α} {b : β}
    (h : b ∈ mapWithIdx f i l) : ∃ n a, a ∈ l ∧ b = f n a := by
  induction l generalizing i with
  | nil => cases h
  | cons a rest ih =>
    rcases List.mem_cons.mp h with h2 | h2
    · exact ⟨i, a, List.mem_cons_self a rest, h2⟩
    · obtain ⟨n, a2, hmem, he⟩ := ih h2
      exact ⟨n, a2, List.mem_cons_of_mem _ hmem, he⟩

theorem square_fillEmpty (g : Grid) (hsq : Square g) (rand : Nat → Nat → Nat) :
    Square (fillEmpty g rand) := by
  intro row2 hmem
  rw [length_fillEmpty]
  obtain ⟨n, row, hrow, he⟩ := mem_mapWithIdx hmem
  rw [he, length_mapWithIdx]
  exact hsq row hrow

theorem randomLetter_range (n : Nat) : 'A' ≤ randomLetter n ∧ randomLetter n ≤ 'Z' := by
  have h : ∀ m : Nat, m < 26 → 'A' ≤ alphabet.getD m 'A' ∧ alphabet.getD m 'A' ≤ 'Z' := by
    decide
  exact h _ (Nat.mod_lt _ (by norm_num))

theorem length_createEmptyGrid (size : Nat) : (createEmptyGrid size).length = size :=
  List.length_replicate ..

theorem square_createEmptyGrid (size : Nat) : Square (createEmptyGrid size) := by
  intro row hmem
  rw [length_createEmptyGrid]
  rcases (List.mem_replicate.mp hmem) with ⟨-, rfl⟩
  exact List.length_replicate ..

theorem getCellN_createEmptyGrid (size : Nat) (r c : Nat) :
    getCellN (createEmptyGrid size) r c = none := by
  unfold getCellN gridGet? createEmptyGrid
  simp only [List.getElem?_replicate]
  by_cases hr : r < size
  · simp only [if_pos hr, Option.some_bind, List.getElem?_replicate]
    by_cases hc : c < size
    · simp [if_pos hc]
    · simp [if_neg hc]
  · simp [if_neg hr]

theorem allDirections_step_injective {dx dy : Int} (hd : (dx, dy) ∈ allDirections)
    (row col : Int) {i j : Nat} (hne : i ≠ j) :
    ¬(row + dx * i = row + dx * j ∧ col + dy * i = col + dy * j) := by
  intro hpq
  obtain ⟨h1, h2⟩ := hpq
  have hall : ∀ p ∈ allDirections,
      -1 ≤ p.1 ∧ p.1 ≤ 1 ∧ -1 ≤ p.2 ∧ p.2 ≤ 1 ∧ ¬(p.1 = 0 ∧ p.2 = 0) := by decide
  obtain ⟨hbx1, hbx2, hby1, hby2, hnz⟩ := hall (dx, dy) hd
  interval_cases dx <;> interval_cases dy <;> omega

theorem buildDirections_subset (o : DirectionOptions) :
    ∀ d ∈ buildDirections o, d ∈ allDirections := by
  intro d hd
  unfold buildDirections at hd
  obtain ⟨h, v, dg, b⟩ := o
  cases h <;> cases v <;> cases dg <;> cases b <;>
    simp_all [allDirections] <;> tauto

end WordSearch


/-! ### Permutation lemmas: swap, Fisher-Yates shuffle, stable sort -/

theorem perm_cons_set {α : Type} : ∀ (t : List α) (k : Nat) (x : α) (hk : k < t.length),
    (t.get ⟨k, hk⟩ :: t.set k x).Perm (x :: t) := by
  intro t
  induction t with
  | nil => intro k x hk; simp at hk
  | cons y t2 ih =>
    intro k x hk
    match k with
    | 0 =>
      exact List.Perm.swap x y t2
    | k2 + 1 =>
      have hk2 : k2 < t2.length := by simpa using Nat.lt_of_succ_lt_succ hk
      show ((y :: t2).get ⟨k2 + 1, hk⟩ :: y :: t2.set k2 x).Perm (x :: y :: t2)
      have e1 : (y :: t2).get ⟨k2 + 1, hk⟩ = t2.get ⟨k2, hk2⟩ := rfl
      rw [e1]
      exact ((List.Perm.swap y (t2.get ⟨k2, hk2⟩) (t2.set k2 x)).trans
        ((ih k2 x hk2).cons y)).trans (List.Perm.swap x y t2)

theorem set_set_perm {α : Type} : ∀ (l : List α) (i j : Nat) (hi : i < l.length)
    (hj : j < l.length),
    ((l.set i (l.get ⟨j, hj⟩)).set j (l.get ⟨i, hi⟩)).Perm l := by
  intro l
  induction l with
  | nil => intro i j hi hj; simp at hi
  | cons x t ih =>
    intro i j hi hj
    match i, j with
    | 0, 0 =>
      show (((x :: t).set 0 x).set 0 x).Perm (x :: t)
      exact List.Perm.refl _
    | 0, j2 + 1 =>
      have hj2 : j2 < t.length := by simpa using Nat.lt_of_succ_lt_succ hj
      show ((t.get ⟨j2, hj2⟩ :: t).set (j2 + 1) x).Perm (x :: t)
      show (t.get ⟨j2, hj2⟩ :: t.set j2 x).Perm (x :: t)
      exact perm_cons_set t j2 x hj2
    | i2 + 1, 0 =>
      have hi2 : i2 < t.length := by simpa using Nat.lt_of_succ_lt_succ hi
      show ((x :: t.set i2 x).set 0 (t.get ⟨i2, hi2⟩)).Perm (x :: t)
      show (t.get ⟨i2, hi2⟩ :: t.set i2 x).Perm (x :: t)
      exact perm_cons_set t i2 x hi2
    | i2 + 1, j2 + 1 =>
      have hi2 : i2 < t.length := by simpa using Nat.lt_of_succ_lt_succ hi
      have hj2 : j2 < t.length := by simpa using Nat.lt_of_succ_lt_succ hj
      show (x :: (t.set i2 (t.get ⟨j2, hj2⟩)).set j2 (t.get ⟨i2, hi2⟩)).Perm (x :: t)
      exact (ih i2 j2 hi2 hj2).cons x

theorem swapAt_perm {α : Type} (l : List α) (i j : Nat) : (swapAt l i j).Perm l := by
  rw [swapAt]
  split
  · next a b hi hj =>
    rcases List.getElem?_eq_some.mp hi with ⟨hilt, hia⟩
    rcases List.getElem?_eq_some.mp hj with ⟨hjlt, hjb⟩
    subst hia
    subst hjb
    exact set_set_perm l i j hilt hjlt
  · exact List.Perm.refl l

theorem fyLoop_perm {α : Type} : ∀ (js : List Nat) (l : List α) (i : Nat),
    (fyLoop l i js).Perm l := by
  intro js
  induction js with
  | nil =>
    intro l i
    match i with
    | 0 => exact List.Perm.refl l
    | _ + 1 => exact List.Perm.refl l
  | cons j rest ih =>
    intro l i
    match i with
    | 0 => exact List.Perm.refl l
    | i2 + 1 =>
      exact (ih (swapAt l (i2 + 1) (j % (i2 + 2))) i2).trans (swapAt_perm l _ _)

theorem shuffleArray_perm {α : Type} (l : List α) (js : List Nat) :
    (shuffleArray l js).Perm l :=
  fyLoop_perm js l (l.length - 1)

theorem length_shuffleArray {α : Type} (l : List α) (js : List Nat) :
    (shuffleArray l js).length = l.length :=
  (shuffleArray_perm l js).length_eq

namespace Crossword

theorem insertDesc_perm (a : Entry) (l : List Entry) : (insertDesc a l).Perm (a :: l) := by
  induction l with
  | nil => exact List.Perm.refl _
  | cons b l2 ih =>
    rw [insertDesc]
    split
    · exact (ih.cons b).trans (List.Perm.swap a b l2)
    · exact List.Perm.refl _

theorem sortEntries_perm (l : List Entry) : (sortEntries l).Perm l := by
  induction l with
  | nil => exact List.Perm.refl _
  | cons a l2 ih => exact (insertDesc_perm a (sortEntries l2)).trans (ih.cons a)

theorem insertDesc_pairwise {a : Entry} {l : List Entry}
    (h : List.Pairwise (fun x y => y.answer.length ≤ x.answer.length) l) :
    List.Pairwise (fun x y => y.answer.length ≤ x.answer.length) (insertDesc a l) := by
  induction l with
  | nil => simp [insertDesc]
  | cons b l2 ih =>
    rw [insertDesc]
    rcases List.pairwise_cons.mp h with ⟨hb, hl2⟩
    split
    · next hlt =>
      refine List.pairwise_cons.mpr ⟨?_, ih hl2⟩
      intro x hx
      rcases List.mem_cons.mp ((insertDesc_perm a l2).mem_iff.mp hx) with h2 | h2
      · subst h2; omega
      · exact hb x h2
    · next hge =>
      refine List.pairwise_cons.mpr ⟨?_, h⟩
      intro x hx
      rcases List.mem_cons.mp hx with h2 | h2
      · subst h2; omega
      · exact Nat.le_trans (hb x h2) (by omega)

theorem sortEntries_pairwise (l : List Entry) :
    List.Pairwise (fun x y => y.answer.length ≤ x.answer.length) (sortEntries l) := by
  induction l with
  | nil => simp [sortEntries]
  | cons a l2 ih => exact insertDesc_pairwise ih

theorem sortEntries_head_longest {l : List Entry} {first : Entry} {rest : List Entry}
    (h : sortEntries l = first :: rest) :
    ∀ e ∈ l, e.answer.length ≤ first.answer.length := by
  intro e he
  have hmem : e ∈ sortEntries l := (sortEntries_perm l).mem_iff.mpr he
  rw [h] at hmem
  rcases List.mem_cons.mp hmem with h2 | h2
  · subst h2; exact Nat.le_refl _
  · have hp := sortEntries_pairwise l
    rw [h] at hp
    exact (List.pairwise_cons.mp hp).1 e h2

end Crossword

/-! ### Crossword placement lemmas -/

namespace Crossword

theorem fitsRun_iff (g : Grid) : ∀ (w : List Char) (r0 c0 dx dy : Int),
    fitsRun g w r0 c0 dx dy = true ↔
      ∀ j : Nat, j < w.length →
        getCell g (r0 + dx * j) (c0 + dy * j) = none ∨
        getCell g (r0 + dx * j) (c0 + dy * j) = w[j]? := by
  intro w
  induction w with
  | nil => intro r0 c0 dx dy; simp [fitsRun]
  | cons ch rest ih =>
    intro r0 c0 dx dy
    rw [fitsRun]
    by_cases hc : getCell g r0 c0 ≠ none ∧ getCell g r0 c0 ≠ some ch
    · rw [if_pos hc]
      simp only [Bool.false_eq_true, false_iff]
      intro hall
      have h0 := hall 0 (by simp)
      push_cast at h0
      simp only [mul_zero, add_zero, List.getElem?_cons_zero] at h0
      tauto
    · rw [if_neg hc]
      rw [ih (r0 + dx) (c0 + dy) dx dy]
      constructor
      · intro hall j hj
        match j with
        | 0 =>
          push_cast
          simp only [mul_zero, add_zero, List.getElem?_cons_zero]
          tauto
        | j2 + 1 =>
          have hrec := hall j2 (by simp only [List.length_cons] at hj; omega)
          push_cast at hrec ⊢
          simp only [List.getElem?_cons_succ]
          have e1 : r0 + dx * ((j2 : Int) + 1) = (r0 + dx) + dx * j2 := by ring
          have e2 : c0 + dy * ((j2 : Int) + 1) = (c0 + dy) + dy * j2 := by ring
          rw [e1, e2]
          exact hrec
      · intro hall j hj
        have hrec := hall (j + 1) (by simp only [List.length_cons]; omega)
        push_cast at hrec ⊢
        simp only [List.getElem?_cons_succ] at hrec
        have e1 : r0 + dx * ((j : Int) + 1) = (r0 + dx) + dx * j := by ring
        have e2 : c0 + dy * ((j : Int) + 1) = (c0 + dy) + dy * j := by ring
        rw [e1, e2] at hrec
        exact hrec

theorem tryPlaceWord_some_eq {g : Grid} {word : List Char} {row col : Int} {dir : Direction}
    {wi : Nat} {g2 : Grid} {r2 c2 : Int} {d2 : Direction}
    (h : tryPlaceWord g word row col dir wi = some (g2, r2, c2, d2)) :
    ∃ r0 c0 dx dy : Int, fitsRun g word r0 c0 dx dy = true ∧
      g2 = commitWord g word r0 c0 dx dy := by
  cases dir with
  | across =>
    simp only [tryPlaceWord] at h
    split at h
    · cases h
    · split at h
      · cases h
      · split at h
        · next hf =>
          simp only [Option.some.injEq, Prod.mk.injEq] at h
          exact ⟨row, col - wi, 0, 1, hf, h.1.symm⟩
        · cases h
  | down =>
    simp only [tryPlaceWord] at h
    split at h
    · cases h
    · split at h
      · cases h
      · split at h
        · next hf =>
          simp only [Option.some.injEq, Prod.mk.injEq] at h
          exact ⟨row - wi, col, 1, 0, hf, h.1.symm⟩
        · cases h

theorem tryPlaceWord_preserves {g : Grid} {word : List Char} {row col : Int}
    {dir : Direction} {wi : Nat} {g2 : Grid} {r2 c2 : Int} {d2 : Direction}
    (h : tryPlaceWord g word row col dir wi = some (g2, r2, c2, d2))
    (p q : Int) (x : Char) (hx : getCell g p q = some x) :
    getCell g2 p q = some x := by
  obtain ⟨r0, c0, dx, dy, hf, rfl⟩ := tryPlaceWord_some_eq h
  apply commitWord_preserves word g r0 c0 dx dy p q x _ hx
  intro j hj h1 h2
  have hcell := (fitsRun_iff g word r0 c0 dx dy).mp hf j hj
  rw [h1, h2] at hcell
  rcases hcell with h3 | h3
  · rw [hx] at h3; cases h3
  · rw [hx] at h3; exact h3.symm

theorem scanCandidates_some {g : Grid} {word : List Char} : ∀ {cands : List (Nat × Nat × Nat)}
    {res : Grid × Int × Int × Direction},
    scanCandidates g word cands = some res →
    ∃ (r c : Int) (d : Direction) (wi : Nat), tryPlaceWord g word r c d wi = some res := by
  intro cands
  induction cands with
  | nil => intro res h; cases h
  | cons t rest ih =>
    intro res h
    obtain ⟨wi, r, c⟩ := t
    rw [scanCandidates] at h
    cases hw : word[wi]? with
    | none =>
      simp only [hw] at h
      exact ih h
    | some ch =>
      simp only [hw] at h
      split at h
      · split at h
        · next val heq =>
          obtain rfl : val = res := Option.some.inj h
          exact ⟨r, c, Direction.across, wi, heq⟩
        · next heq1 =>
          split at h
          · next val heq2 =>
            obtain rfl : val = res := Option.some.inj h
            exact ⟨r, c, Direction.down, wi, heq2⟩
          · exact ih h
      · exact ih h

theorem placeEntry_preserves (g : Grid) (e : Entry) (p q : Int) (x : Char)
    (hx : getCell g p q = some x) :
    getCell (placeEntry g e).1 p q = some x := by
  rw [placeEntry]
  split
  · exact hx
  · split
    · next g2 r c d hscan =>
      obtain ⟨r0, c0, d0, wi, htry⟩ := scanCandidates_some hscan
      exact tryPlaceWord_preserves htry p q x hx
    · exact hx

theorem placeRest_preserves : ∀ (es : List Entry) (g : Grid) (p q : Int) (x : Char),
    getCell g p q = some x → getCell (placeRest g es).1 p q = some x := by
  intro es
  induction es with
  | nil => intro g p q x hx; exact hx
  | cons e rest ih =>
    intro g p q x hx
    rw [placeRest]
    exact ih _ p q x (placeEntry_preserves g e p q x hx)

end Crossword

/-! ### Crossword numbering lemmas -/

theorem gridGet?_isSome_of_sq {α : Type} {g : List (List α)}
    (hsq : ∀ row ∈ g, row.length = g.length) {r c : Nat}
    (hr : r < g.length) (hc : c < g.length) :
    ∃ cell, gridGet? g r c = some cell := by
  unfold gridGet?
  rw [List.getElem?_eq_getElem hr]
  have hrow : g[r] ∈ g := List.getElem_mem hr
  have hlen : g[r].length = g.length := hsq _ hrow
  refine ⟨(g[r]).get ⟨c, by omega⟩, ?_⟩
  simp [List.getElem?_eq_getElem (show c < g[r].length by omega), List.get_eq_getElem]

theorem gridSet_preserves_sq {α : Type} {g : List (List α)}
    (hsq : ∀ row ∈ g, row.length = g.length) (r c : Nat) (v : α) :
    ∀ row2 ∈ gridSet g r c v, row2.length = (gridSet g r c v).length := by
  intro row2 hmem
  rw [length_gridSet]
  unfold gridSet at hmem
  cases hr : g[r]? with
  | none => rw [hr] at hmem; exact hsq row2 hmem
  | some row =>
    rw [hr] at hmem
    rcases List.mem_or_eq_of_mem_set hmem with h | h
    · exact hsq row2 h
    · subst h
      rw [List.length_set]
      rcases List.getElem?_eq_some.mp hr with ⟨hh, he⟩
      exact hsq row (by rw [← he]; exact List.getElem_mem hh)

namespace Crossword

theorem mem_rowMajor {size : Nat} {p : Nat × Nat} :
    p ∈ rowMajor size ↔ p.1 < size ∧ p.2 < size := by
  obtain ⟨r, c⟩ := p
  rw [rowMajor]
  simp only [List.mem_flatMap, List.mem_map, List.mem_range, Prod.mk.injEq]
  constructor
  · rintro ⟨a, ha, c2, hc2, rfl, rfl⟩
    exact ⟨ha, hc2⟩
  · rintro ⟨hr, hc⟩
    exact ⟨r, hr, c, hc, rfl, rfl⟩

theorem nodup_rowMajor (size : Nat) : (rowMajor size).Nodup := by
  rw [rowMajor, List.nodup_flatMap]
  constructor
  · intro r hr
    exact (List.nodup_range size).map (fun c1 c2 h => by
      simpa using congrArg Prod.snd h)
  · have hlt := List.pairwise_lt_range size
    refine hlt.imp ?_
    intro a b hab x hxa hxb
    simp only [Function.onFun, List.mem_map, List.mem_range] at hxa hxb
    obtain ⟨c1, _, rfl⟩ := hxa
    obtain ⟨c2, _, he⟩ := hxb
    have := congrArg Prod.fst he
    simp at this
    omega

theorem getNumN_createEmptyNumbers (size r c : Nat) :
    getNumN (createEmptyNumbers size) r c = none := by
  unfold getNumN gridGet? createEmptyNumbers
  simp only [List.getElem?_replicate]
  by_cases hr : r < size
  · simp only [if_pos hr, Option.some_bind, List.getElem?_replicate]
    by_cases hc : c < size
    · simp [if_pos hc]
    · simp [if_neg hc]
  · simp [if_neg hr]

theorem numAssign_snd (g : Grid) : ∀ (P : List (Nat × Nat)) (k : Nat),
    (numAssign g P k).map Prod.snd = List.range' k (P.countP (cellStarts g)) := by
  intro P
  induction P with
  | nil => intro k; simp [numAssign]
  | cons p rest ih =>
    intro k
    rw [numAssign, List.countP_cons]
    by_cases hs : cellStarts g p = true
    · rw [if_pos hs, List.map_cons, ih (k + 1), hs]
      simp only [if_pos rfl]
      exact (List.range'_succ k (rest.countP (cellStarts g)) 1).symm
    · rw [if_neg hs, ih k]
      simp [hs]

theorem numAssign_keys_sub (g : Grid) : ∀ (P : List (Nat × Nat)) (k : Nat)
    (q : (Nat × Nat) × Nat), q ∈ numAssign g P k → q.1 ∈ P ∧ cellStarts g q.1 = true := by
  intro P
  induction P with
  | nil => intro k q h; cases h
  | cons p rest ih =>
    intro k q h
    rw [numAssign] at h
    by_cases hs : cellStarts g p = true
    · rw [if_pos hs] at h
      rcases List.mem_cons.mp h with h2 | h2
      · subst h2
        exact ⟨List.mem_cons_self p rest, hs⟩
      · obtain ⟨h3, h4⟩ := ih (k + 1) q h2
        exact ⟨List.mem_cons_of_mem _ h3, h4⟩
    · rw [if_neg hs] at h
      obtain ⟨h3, h4⟩ := ih k q h
      exact ⟨List.mem_cons_of_mem _ h3, h4⟩

theorem lookupPos_eq_none {A : List ((Nat × Nat) × Nat)} {p : Nat × Nat}
    (h : ∀ q ∈ A, q.1 ≠ p) : lookupPos A p = none := by
  induction A with
  | nil => rfl
  | cons a rest ih =>
    obtain ⟨q, n⟩ := a
    rw [lookupPos]
    rw [if_neg (h (q, n) (List.mem_cons_self _ _))]
    exact ih (fun q2 hq2 => h q2 (List.mem_cons_of_mem _ hq2))

theorem lookupPos_isSome_iff_numAssign (g : Grid) : ∀ (P : List (Nat × Nat)) (k : Nat)
    (p : Nat × Nat),
    (∃ n, lookupPos (numAssign g P k) p = some n) ↔ p ∈ P ∧ cellStarts g p = true := by
  intro P
  induction P with
  | nil =>
    intro k p
    simp [numAssign, lookupPos]
  | cons p0 rest ih =>
    intro k p
    rw [numAssign]
    by_cases hs : cellStarts g p0 = true
    · rw [if_pos hs]
      by_cases hp : p0 = p
      · subst hp
        rw [lookupPos, if_pos rfl]
        simp only [Option.some.injEq]
        constructor
        · intro _
          exact ⟨List.mem_cons_self _ _, hs⟩
        · intro _
          exact ⟨k, rfl⟩
      · rw [lookupPos, if_neg hp]
        rw [ih (k + 1) p]
        constructor
        · rintro ⟨h1, h2⟩
          exact ⟨List.mem_cons_of_mem _ h1, h2⟩
        · rintro ⟨h1, h2⟩
          rcases List.mem_cons.mp h1 with h3 | h3
          · exact absurd h3.symm hp
          · exact ⟨h3, h2⟩
    · rw [if_neg hs]
      rw [ih k p]
      constructor
      · rintro ⟨h1, h2⟩
        exact ⟨List.mem_cons_of_mem _ h1, h2⟩
      · rintro ⟨h1, h2⟩
        rcases List.mem_cons.mp h1 with h3 | h3
        · subst h3
          exact absurd h2 hs
        · exact ⟨h3, h2⟩

theorem filterMap_lookupPos_numAssign (g : Grid) : ∀ (P : List (Nat × Nat)), P.Nodup →
    ∀ k : Nat, P.filterMap (lookupPos (numAssign g P k)) = (numAssign g P k).map Prod.snd := by
  intro P
  induction P with
  | nil => intro _ k; simp [numAssign]
  | cons p0 rest ih =>
    intro hnd k
    obtain ⟨hp0, hndr⟩ := List.nodup_cons.mp hnd
    rw [numAssign]
    by_cases hs : cellStarts g p0 = true
    · rw [if_pos hs]
      rw [List.filterMap_cons]
      rw [show lookupPos ((p0, k) :: numAssign g rest (k + 1)) p0 = some k from by
        rw [lookupPos, if_pos rfl]]
      have hcongr : rest.filterMap (lookupPos ((p0, k) :: numAssign g rest (k + 1))) =
          rest.filterMap (lookupPos (numAssign g rest (k + 1))) := by
        apply List.filterMap_congr
        intro q hq
        rw [lookupPos, if_neg (fun he => hp0 (by rw [he]; exact hq))]
      rw [hcongr, ih hndr (k + 1), List.map_cons]
    · rw [if_neg hs]
      rw [List.filterMap_cons]
      rw [show lookupPos (numAssign g rest k) p0 = none from
        lookupPos_eq_none (fun q hq he => hp0 (by
          rw [← he]; exact (numAssign_keys_sub g rest k q hq).1))]
      have hcongr : rest.filterMap (lookupPos (numAssign g rest k)) =
          (numAssign g rest k).map Prod.snd := ih hndr k
      rw [hcongr]

theorem numberClueLoop_getNum (g : Grid) (es : List Entry) :
    ∀ (P : List (Nat × Nat)) (st : NumState), P.Nodup →
      (∀ row ∈ st.numbers, row.length = st.numbers.length) →
      (∀ p ∈ P, p.1 < st.numbers.length ∧ p.2 < st.numbers.length) →
      ∀ p : Nat × Nat,
        getNumN (numberClueLoop g es P st).numbers p.1 p.2 =
          (lookupPos (numAssign g P st.k) p).or (getNumN st.numbers p.1 p.2) := by
  intro P
  induction P with
  | nil =>
    intro st hnd hsq hin p
    simp [numberClueLoop, numAssign, lookupPos]
  | cons p0 rest ih =>
    intro st hnd hsq hin p
    obtain ⟨hp0, hndr⟩ := List.nodup_cons.mp hnd
    obtain ⟨r0, c0⟩ := p0
    rw [numberClueLoop, numAssign]
    by_cases hempty : getCellN g r0 c0 = none
    · rw [if_pos hempty]
      have hcs : cellStarts g (r0, c0) = false := by
        simp [cellStarts, hempty]
      rw [if_neg (by simp [hcs])]
      exact ih st hndr hsq (fun q hq => hin q (List.mem_cons_of_mem _ hq)) p
    · rw [if_neg hempty]
      by_cases hsd : (startsAcrossB g r0 c0 || startsDownB g r0 c0) = true
      · rw [if_pos hsd]
        have hcs : cellStarts g (r0, c0) = true := by
          simp only [cellStarts]
          simp [hempty, hsd]
        rw [if_pos hcs]
        have hb0 := hin (r0, c0) (List.mem_cons_self _ _)
        refine (ih _ hndr ?_ ?_ p).trans ?_
        · intro row hrow
          exact gridSet_preserves_sq hsq r0 c0 (some st.k) row hrow
        · intro q hq
          simp only [length_gridSet]
          exact hin q (List.mem_cons_of_mem _ hq)
        · rw [lookupPos]
          by_cases hp : (r0, c0) = p
          · rw [if_pos hp]
            subst hp
            have hnin : lookupPos (numAssign g rest (st.k + 1)) (r0, c0) = none :=
              lookupPos_eq_none (fun q hq he => hp0 (by
                rw [← he]; exact (numAssign_keys_sub g rest _ q hq).1))
            rw [hnin]
            show getNumN (gridSet st.numbers r0 c0 (some st.k)) r0 c0 = some st.k
            unfold getNumN
            rw [gridGet?_gridSet_eq]
            obtain ⟨cell, hcell⟩ := gridGet?_isSome_of_sq hsq hb0.1 hb0.2
            rw [hcell]
            rfl
          · rw [if_neg hp]
            have hne : getNumN (gridSet st.numbers r0 c0 (some st.k)) p.1 p.2 =
                getNumN st.numbers p.1 p.2 := by
              unfold getNumN
              rw [gridGet?_gridSet_ne]
              intro hand
              exact hp (Prod.ext hand.1 hand.2)
            rw [hne]
      · rw [if_neg hsd]
        have hcs : cellStarts g (r0, c0) = false := by
          simp only [cellStarts]
          simp [hsd]
        rw [if_neg (by simp [hcs])]
        exact ih st hndr hsq (fun q hq => hin q (List.mem_cons_of_mem _ hq)) p

theorem numberAndBuildClues_getNum (g : Grid) (es : List Entry) (p : Nat × Nat) :
    getNumN (numberAndBuildClues g es).numbers p.1 p.2 =
      lookupPos (numAssign g (rowMajor g.length) 1) p := by
  have hsqn : ∀ row ∈ createEmptyNumbers g.length,
      row.length = (createEmptyNumbers g.length).length := by
    intro row hrow
    unfold createEmptyNumbers at hrow ⊢
    rcases List.mem_replicate.mp hrow with ⟨-, rfl⟩
    simp
  have hinn : ∀ p2 ∈ rowMajor g.length,
      p2.1 < (createEmptyNumbers g.length).length ∧
      p2.2 < (createEmptyNumbers g.length).length := by
    intro p2 hmem
    have hm := mem_rowMajor.mp hmem
    unfold createEmptyNumbers
    simpa using hm
  have hmain := numberClueLoop_getNum g es (rowMajor g.length)
    ⟨createEmptyNumbers g.length, [], [], 1⟩ (nodup_rowMajor _) hsqn hinn p
  unfold numberAndBuildClues
  rw [hmain]
  show (lookupPos (numAssign g (rowMajor g.length) 1) p).or
      (getNumN (createEmptyNumbers g.length) p.1 p.2) = _
  rw [getNumN_createEmptyNumbers]
  cases lookupPos (numAssign g (rowMajor g.length) 1) p <;> rfl

theorem numberAndBuildClues_filterMap (g : Grid) (es : List Entry) :
    (rowMajor g.length).filterMap
        (fun p => getNumN (numberAndBuildClues g es).numbers p.1 p.2) =
      List.range' 1 ((rowMajor g.length).countP (cellStarts g)) := by
  have h1 : (rowMajor g.length).filterMap
        (fun p => getNumN (numberAndBuildClues g es).numbers p.1 p.2) =
      (rowMajor g.length).filterMap (lookupPos (numAssign g (rowMajor g.length) 1)) :=
    List.filterMap_congr (fun p hp => numberAndBuildClues_getNum g es p)
  rw [h1, filterMap_lookupPos_numAssign g _ (nodup_rowMajor _) 1, numAssign_snd]

end Crossword

/-! ### Bingo lemmas -/

theorem eraseIdx_append_cons {α : Type} : ∀ (l1 : List α) (x : α) (l2 : List α),
    (l1 ++ x :: l2).eraseIdx l1.length = l1 ++ l2 := by
  intro l1
  induction l1 with
  | nil => intro x l2; rfl
  | cons a rest ih =>
    intro x l2
    simp only [List.cons_append, List.length_cons, List.eraseIdx_cons_succ]
    rw [ih]

namespace Bingo

theorem bingoFill_append (sel : List (List Char)) :
    ∀ (P1 P2 : List (Nat × Nat)) (i : Nat), (2, 2) ∉ P1 →
      bingoFill sel (P1 ++ P2) i = bingoFill sel P1 i ++ bingoFill sel P2 (i + P1.length) := by
  intro P1
  induction P1 with
  | nil => intro P2 i h; simp [bingoFill]
  | cons p rest ih =>
    intro P2 i h
    obtain ⟨r, c⟩ := p
    have hnc : ¬(r = 2 ∧ c = 2) := by
      rintro ⟨rfl, rfl⟩
      exact h (List.mem_cons_self _ _)
    simp only [List.cons_append, bingoFill, if_neg hnc, List.append_eq]
    rw [ih P2 (i + 1) (fun hm => h (List.mem_cons_of_mem _ hm))]
    simp only [List.cons_append, List.length_cons]
    have e : i + 1 + rest.length = i + (rest.length + 1) := by omega
    rw [e]

theorem bingoFill_noCenter (sel : List (List Char)) :
    ∀ (P : List (Nat × Nat)) (i : Nat), (2, 2) ∉ P →
      bingoFill sel P i = (List.range P.length).map (fun k => sel.getD (i + k) []) := by
  intro P
  induction P with
  | nil => intro i h; rfl
  | cons p rest ih =>
    intro i h
    obtain ⟨r, c⟩ := p
    have hnc : ¬(r = 2 ∧ c = 2) := by
      rintro ⟨rfl, rfl⟩
      exact h (List.mem_cons_self _ _)
    rw [bingoFill, if_neg hnc, ih (i + 1) (fun hm => h (List.mem_cons_of_mem _ hm))]
    rw [List.length_cons, List.range_succ_eq_map, List.map_cons, List.map_map]
    have hfe : ((fun k => sel.getD (i + k) ([] : List Char)) ∘ Nat.succ) =
        (fun k => sel.getD (i + 1 + k) []) := by
      funext k
      simp only [Function.comp_apply]
      congr 1
      omega
    rw [hfe]
    simp

theorem map_getD_range_off (sel : List (List Char)) (i n : Nat) (h : i + n ≤ sel.length) :
    (List.range n).map (fun k => sel.getD (i + k) []) = (sel.drop i).take n := by
  apply List.ext_getElem
  · simp only [List.length_map, List.length_range, List.length_take, List.length_drop]
    omega
  · intro j h1 h2
    simp only [List.length_map, List.length_range] at h1
    simp only [List.getElem_map, List.getElem_range, List.getElem_take, List.getElem_drop]
    rw [List.getD_eq_getElem]

theorem toRows_flatten (l : List (List Char)) (h : l.length = 25) :
    (toRows l).flatten = l := by
  simp only [toRows, List.flatten_cons, List.flatten_nil, List.append_nil]
  have h20 : List.take 5 (List.drop 20 l) = List.drop 20 l :=
    List.take_of_length_le (by rw [List.length_drop]; omega)
  have e1 : List.drop 20 l = List.drop 5 (List.drop 15 l) := by
    simp [List.drop_drop]
  have e2 : List.drop 15 l = List.drop 5 (List.drop 10 l) := by
    simp [List.drop_drop]
  have e3 : List.drop 10 l = List.drop 5 (List.drop 5 l) := by
    simp [List.drop_drop]
  rw [h20, e1, List.take_append_drop, e2, List.take_append_drop, e3, List.take_append_drop,
    List.take_append_drop]

end Bingo

/-! ### Claims -/

section Claims

open WordSearch

/-- C1: `canPlaceWord(grid, word, row, col, dx, dy)` returns `true` if
and only if every index `i < word.length` puts the cell
`(row + dx*i, col + dy*i)` inside the grid bounds and that cell is
empty or already equal to `word[i]`.  The function is a pure fold over
the indices (no grid is ever returned or modified), and by totality it
returns `false` exactly when some index violates the condition, the
loop stopping at the first such index. -/
theorem claim_C1 (g : Grid) (w : List Char) (row col dx dy : Int) (hsq : Square g) :
    canPlaceWord g w row col dx dy = true ↔
      ∀ i : Nat, i < w.length →
        (0 ≤ row + dx * i ∧ row + dx * i < (g.length : Int) ∧
         0 ≤ col + dy * i ∧ col + dy * i < (g.length : Int)) ∧
        (getCell g (row + dx * i) (col + dy * i) = none ∨
         getCell g (row + dx * i) (col + dy * i) = w[i]?) :=
  canPlaceWord_iff g w row col dx dy

/-- Witness for C1 at a concrete grid and word. -/
theorem claim_C1_witness :
    canPlaceWord (createEmptyGrid 3) ['C', 'A', 'T'] 0 0 0 1 = true :=
  (claim_C1 (createEmptyGrid 3) ['C', 'A', 'T'] 0 0 0 1 (square_createEmptyGrid 3)).mpr
    (by decide)

/-- C4: with an empty direction set, `placeWord` fails for every
non-empty word: it returns `false` and the grid it leaves behind is the
unchanged input grid. -/
theorem claim_C4 (g : Grid) (w : List Char) (atts : List Attempt) (hw : w ≠ []) :
    placeWord g w [] atts = (g, false) := by
  rw [placeWord]
  rfl

/-- Witness for C4 at a concrete grid and word. -/
theorem claim_C4_witness :
    placeWord (createEmptyGrid 8) ['C', 'A', 'T'] [] [] = (createEmptyGrid 8, false) :=
  claim_C4 (createEmptyGrid 8) ['C', 'A', 'T'] [] (by decide)


/-- C3: (a) whenever `canPlaceWord` approves a placement — and the
placer writes letters only after this approval — every written position
`(row + dx*i, col + dy*i)`, `i < word.length`, lies inside `[0, S)²`;
(b) the grid built by `generatePuzzle` (empty grid, word placement,
random fill) is exactly `S × S`: no write escapes the grid structure. -/
theorem claim_C3 :
    (∀ (g : Grid) (w : List Char) (row col dx dy : Int),
       canPlaceWord g w row col dx dy = true →
       ∀ i : Nat, i < w.length →
         0 ≤ row + dx * i ∧ row + dx * i < (g.length : Int) ∧
         0 ≤ col + dy * i ∧ col + dy * i < (g.length : Int)) ∧
    (∀ (S : Nat) (raw : List (List Char)) (o : DirectionOptions)
       (plans : List (List Attempt)) (rand : Nat → Nat → Nat),
       (∀ w ∈ raw, w.length ≤ S) →
       (generatePuzzle raw S o plans rand).1.length = S ∧
       ∀ row ∈ (generatePuzzle raw S o plans rand).1, row.length = S) := by
  constructor
  · intro g w row col dx dy hcan i hi
    exact ((canPlaceWord_iff g w row col dx dy).mp hcan i hi).1
  · intro S raw o plans rand hw
    have hlen : (generatePuzzle raw S o plans rand).1.length = S := by
      unfold generatePuzzle placedGrid
      rw [length_fillEmpty, length_placeAll, length_createEmptyGrid]
    refine ⟨hlen, ?_⟩
    intro row hrow
    have hsq : Square (generatePuzzle raw S o plans rand).1 := by
      unfold generatePuzzle placedGrid
      exact square_fillEmpty _ (square_placeAll _ (square_createEmptyGrid S) _ _ _) rand
    rw [hsq row hrow, hlen]

/-- Witness for C3: both parts at a concrete instance. -/
theorem claim_C3_witness :
    (0 ≤ (0 : Int) + 0 * (0 : Nat) ∧ (0 : Int) + 0 * (0 : Nat) < ((createEmptyGrid 3).length : Int) ∧
     0 ≤ (0 : Int) + 1 * (0 : Nat) ∧ (0 : Int) + 1 * (0 : Nat) < ((createEmptyGrid 3).length : Int)) ∧
    ((generatePuzzle [['A']] 8 ⟨true, false, false, false⟩ [] (fun _ _ => 0)).1.length = 8 ∧
     ∀ row ∈ (generatePuzzle [['A']] 8 ⟨true, false, false, false⟩ [] (fun _ _ => 0)).1,
       row.length = 8) :=
  ⟨claim_C3.1 (createEmptyGrid 3) ['A'] 0 0 0 1 (by decide) 0 (by decide),
   claim_C3.2 8 [['A']] ⟨true, false, false, false⟩ [] (fun _ _ => 0) (by decide)⟩

/-- C10: the frame property of the word-search `placeWord` (directions
drawn, as in the program, from the eight supported unit vectors): on
failure the grid is returned unchanged; on success the grid equals the
input grid with exactly one approved line committed — every cell off
that line keeps its previous value and the line cells hold the word's
letters. -/
theorem claim_C10 (g : Grid) (w : List Char) (dirs : List (Int × Int))
    (atts : List Attempt) (hsq : Square g)
    (hdirs : ∀ d ∈ dirs, d ∈ allDirections)
    (hatts : ∀ a ∈ atts, a.1 ∈ dirs) :
    ((placeWord g w dirs atts).2 = false → (placeWord g w dirs atts).1 = g) ∧
    ((placeWord g w dirs atts).2 = true →
      ∃ row col dx dy : Int, (dx, dy) ∈ dirs ∧
        canPlaceWord g w row col dx dy = true ∧
        (placeWord g w dirs atts).1 = commitWord g w row col dx dy ∧
        (∀ p q : Int, (∀ i : Nat, i < w.length → ¬(p = row + dx * i ∧ q = col + dy * i)) →
          getCell (placeWord g w dirs atts).1 p q = getCell g p q) ∧
        (∀ i : Nat, i < w.length →
          getCell (placeWord g w dirs atts).1 (row + dx * i) (col + dy * i) = w[i]?)) := by
  constructor
  · intro hf
    by_cases he : dirs.isEmpty = true
    · rw [placeWord, if_pos he]
    · rw [placeWord, if_neg he] at hf ⊢
      exact placeLoop_of_false _ _ _ hf
  · intro ht
    by_cases he : dirs.isEmpty = true
    · rw [placeWord, if_pos he] at ht
      simp at ht
    · rw [placeWord, if_neg he] at ht
      obtain ⟨a, ha, hcan, heq⟩ := placeLoop_of_true g w atts ht
      obtain ⟨⟨dx, dy⟩, rw2, cl⟩ := a
      have hmem : (dx, dy) ∈ dirs := hatts _ ha
      refine ⟨rw2, cl, dx, dy, hmem, hcan, ?_, ?_, ?_⟩
      · rw [placeWord, if_neg he]
        exact heq
      · intro p q hfr
        rw [placeWord, if_neg he, heq]
        exact commitWord_frame w g rw2 cl dx dy p q hfr
      · intro i hi
        rw [placeWord, if_neg he, heq]
        apply commitWord_getCell w g rw2 cl dx dy hsq
        · intro i2 hi2
          exact ((canPlaceWord_iff g w rw2 cl dx dy).mp hcan i2 hi2).1
        · intro i2 j2 h1 h2 hne
          exact allDirections_step_injective (hdirs _ hmem) rw2 cl hne
        · exact hi

/-- Witness for C10 at a concrete grid, word and attempt list. -/
theorem claim_C10_witness :
    ((placeWord (createEmptyGrid 3) ['A'] [((0 : Int), (1 : Int))] [((0, 1), 0, 0)]).2 = false →
      (placeWord (createEmptyGrid 3) ['A'] [((0 : Int), (1 : Int))] [((0, 1), 0, 0)]).1 =
        createEmptyGrid 3) ∧
    ((placeWord (createEmptyGrid 3) ['A'] [((0 : Int), (1 : Int))] [((0, 1), 0, 0)]).2 = true →
      ∃ row col dx dy : Int, (dx, dy) ∈ [((0 : Int), (1 : Int))] ∧
        canPlaceWord (createEmptyGrid 3) ['A'] row col dx dy = true ∧
        (placeWord (createEmptyGrid 3) ['A'] [((0 : Int), (1 : Int))] [((0, 1), 0, 0)]).1 =
          commitWord (createEmptyGrid 3) ['A'] row col dx dy ∧
        (∀ p q : Int,
          (∀ i : Nat, i < (['A'] : List Char).length → ¬(p = row + dx * i ∧ q = col + dy * i)) →
          getCell (placeWord (createEmptyGrid 3) ['A'] [((0 : Int), (1 : Int))] [((0, 1), 0, 0)]).1
              p q =
            getCell (createEmptyGrid 3) p q) ∧
        (∀ i : Nat, i < (['A'] : List Char).length →
          getCell (placeWord (createEmptyGrid 3) ['A'] [((0 : Int), (1 : Int))] [((0, 1), 0, 0)]).1
              (row + dx * i) (col + dy * i) = (['A'] : List Char)[i]?)) :=
  claim_C10 (createEmptyGrid 3) ['A'] [((0 : Int), (1 : Int))] [((0, 1), 0, 0)]
    (square_createEmptyGrid 3) (by decide) (by decide)

/-- C5 counterexample: the claim says every cell of the generated grid
holds an uppercase letter A-Z, but word characters are only uppercased,
never restricted to letters: placing the cleaned word "1" leaves the
digit 1 in a cell of the returned grid. -/
theorem claim_C5_counterexample :
    getCellN (generatePuzzle [['1']] 8 ⟨true, false, false, false⟩ [[((0, 1), 0, 0)]]
        (fun _ _ => 0)).1 0 0 = some '1' ∧
      ¬('A' ≤ '1' ∧ '1' ≤ 'Z') := by
  constructor
  · decide
  · decide

/-- C5 as amended: after `generatePuzzle` no cell of the returned grid
is empty — every in-bounds cell holds exactly one character — and every
cell that was still empty after word placement holds a random letter
A-Z.  (Cells covered by a placed word hold that word's characters,
which are uppercased but need not be alphabetic.) -/
theorem claim_C5_amended (raw : List (List Char)) (S : Nat) (o : DirectionOptions)
    (plans : List (List Attempt)) (rand : Nat → Nat → Nat) (r c : Nat)
    (hr : r < S) (hc : c < S) :
    ∃ ch : Char, getCellN (generatePuzzle raw S o plans rand).1 r c = some ch ∧
      (getCellN (placedGrid raw S o plans) r c = none → 'A' ≤ ch ∧ ch ≤ 'Z') := by
  have hsqP : Square (placedGrid raw S o plans) :=
    square_placeAll _ (square_createEmptyGrid S) _ _ _
  have hlenP : (placedGrid raw S o plans).length = S := by
    unfold placedGrid
    rw [length_placeAll, length_createEmptyGrid]
  obtain ⟨cell, hcell⟩ := gridGet?_isSome_of_square hsqP
    (show r < (placedGrid raw S o plans).length by omega)
    (show c < (placedGrid raw S o plans).length by omega)
  have hfill := gridGet?_fillEmpty (placedGrid raw S o plans) rand r c
  rw [hcell] at hfill
  cases cell with
  | none =>
    refine ⟨randomLetter (rand r c), ?_, fun _ => randomLetter_range _⟩
    unfold generatePuzzle getCellN
    rw [hfill]
    rfl
  | some ch =>
    refine ⟨ch, ?_, ?_⟩
    · unfold generatePuzzle getCellN
      rw [hfill]
      rfl
    · intro hnone
      unfold getCellN at hnone
      rw [hcell] at hnone
      cases hnone

/-- Witness for the amended C5 at a concrete instance. -/
theorem claim_C5_witness :
    ∃ ch : Char,
      getCellN (generatePuzzle [] 8 ⟨true, false, false, false⟩ [] (fun _ _ => 0)).1 0 0 =
        some ch ∧
      (getCellN (placedGrid [] 8 ⟨true, false, false, false⟩ []) 0 0 = none →
        'A' ≤ ch ∧ ch ≤ 'Z') :=
  claim_C5_amended [] 8 ⟨true, false, false, false⟩ [] (fun _ _ => 0) 0 0
    (by decide) (by decide)


/-- C2: the read-before-write invariant of both placers.  Word search:
whatever attempts are drawn, `placeWord` never changes a cell that
already holds a letter to a different letter — any cell holding `x`
before still holds `x` after.  Crossword: a successful `tryPlaceWord`
likewise preserves every already-filled cell.  (The placers check every
covered cell — empty or identical letter — before writing, which is
exactly what makes this hold.) -/
theorem claim_C2 :
    (∀ (g : Grid) (w : List Char) (dirs : List (Int × Int)) (atts : List Attempt)
       (p q : Int) (x : Char), getCell g p q = some x →
       getCell (placeWord g w dirs atts).1 p q = some x) ∧
    (∀ (g : Grid) (word : List Char) (row col : Int) (dir : Crossword.Direction) (wi : Nat)
       (g2 : Grid) (r2 c2 : Int) (d2 : Crossword.Direction),
       Crossword.tryPlaceWord g word row col dir wi = some (g2, r2, c2, d2) →
       ∀ (p q : Int) (x : Char), getCell g p q = some x → getCell g2 p q = some x) :=
  ⟨fun g w dirs atts p q x hx => placeWord_preserves g w dirs atts p q x hx,
   fun g word row col dir wi g2 r2 c2 d2 h p q x hx =>
     Crossword.tryPlaceWord_preserves h p q x hx⟩

/-- Witness for C2: both placers at a concrete grid holding a letter. -/
theorem claim_C2_witness :
    getCell (placeWord [[some 'A', none], [none, none]] ['B'] [((0 : Int), (1 : Int))]
        [((0, 1), 0, 1)]).1 0 0 = some 'A' ∧
    getCell ([[some 'A', some 'B', none], [none, none, none], [none, none, none]] : Grid)
        0 0 = some 'A' := by
  constructor
  · exact claim_C2.1 [[some 'A', none], [none, none]] ['B'] [((0 : Int), (1 : Int))]
      [((0, 1), 0, 1)] 0 0 'A' (by decide)
  · exact claim_C2.2 [[some 'A', none, none], [none, none, none], [none, none, none]]
      ['A', 'B'] 0 0 Crossword.Direction.across 0
      [[some 'A', some 'B', none], [none, none, none], [none, none, none]] 0 0
      Crossword.Direction.across (by decide) 0 0 'A' (by decide)

/-- C6 counterexample: for a first entry whose answer has 16 characters
the source clamps the start column at 0 (`Math.max(0, ...)`), while the
claimed formula `floor((size - len)/2)` gives -1. -/
theorem claim_C6_counterexample :
    ((Crossword.generateCrossword
        [⟨0, List.replicate 16 'A', "x", false, none, none, none⟩] []).entries.headD
      default).col = some 0 ∧
    Int.fdiv (15 - ((List.replicate 16 'A').length : Int)) 2 = -1 ∧
    some (0 : Int) ≠ some (-1 : Int) := by
  refine ⟨by decide, by decide, by decide⟩

/-- C6 as amended: for the empty entry list `generateCrossword` returns
the empty puzzle immediately; for every non-empty entry list the first
entry of the shuffled-then-sorted list (a longest entry) is placed
across on the middle row 7 = floor(15/2), start column
`max(0, floor((15 - len)/2))` — the claim omitted the clamp to 0 — and
marked placed; when the answer fits the grid its letters are in the
returned grid along that row. -/
theorem claim_C6 :
    (∀ js : List Nat,
      Crossword.generateCrossword [] js =
        ⟨Crossword.createEmptyGrid 15, Crossword.createEmptyNumbers 15, [], [], [], []⟩) ∧
    (∀ (entries : List Crossword.Entry) (js : List Nat), entries ≠ [] →
      ∃ first rest,
        Crossword.sortEntries (shuffleArray entries js) = first :: rest ∧
        (∀ e ∈ entries, e.answer.length ≤ first.answer.length) ∧
        (Crossword.generateCrossword entries js).entries.head? =
          some { first with
                  placed := true
                  row := some 7
                  col := some (max 0 (Int.fdiv (15 - (first.answer.length : Int)) 2))
                  direction := some Crossword.Direction.across } ∧
        (first.answer.length ≤ 15 →
          ∀ i : Nat, i < first.answer.length →
            getCell (Crossword.generateCrossword entries js).grid 7
                (max 0 (Int.fdiv (15 - (first.answer.length : Int)) 2) + i) =
              first.answer[i]?)) := by
  constructor
  · intro js
    have h0 : shuffleArray ([] : List Crossword.Entry) js = [] := by
      unfold shuffleArray
      cases js <;> rfl
    simp [Crossword.generateCrossword, h0, Crossword.sortEntries, Crossword.GRID_SIZE]
  · intro entries js hne
    obtain ⟨first, rest, hsort⟩ :
        ∃ f r, Crossword.sortEntries (shuffleArray entries js) = f :: r := by
      cases hs : Crossword.sortEntries (shuffleArray entries js) with
      | nil =>
        exfalso
        have hperm := (Crossword.sortEntries_perm (shuffleArray entries js)).trans
          (shuffleArray_perm entries js)
        rw [hs] at hperm
        have hl := hperm.length_eq
        cases entries with
        | nil => exact hne rfl
        | cons a l => simp at hl
      | cons f r => exact ⟨f, r, rfl⟩
    have hlongest : ∀ e ∈ entries, e.answer.length ≤ first.answer.length := by
      intro e he
      exact Crossword.sortEntries_head_longest hsort e
        ((shuffleArray_perm entries js).mem_iff.mpr he)
    refine ⟨first, rest, hsort, hlongest, ?_, ?_⟩
    · simp only [Crossword.generateCrossword, Crossword.GRID_SIZE, hsort]
      norm_num
    · intro hlen i hi
      simp only [Crossword.generateCrossword, Crossword.GRID_SIZE, hsort]
      have hfd : Int.fdiv (15 - (first.answer.length : Int)) 2 =
          (15 - (first.answer.length : Int)) / 2 :=
        Int.fdiv_eq_ediv _ (by norm_num)
      obtain ⟨ch, hch⟩ : ∃ ch, first.answer[i]? = some ch :=
        ⟨first.answer.get ⟨i, hi⟩, List.getElem?_eq_getElem hi⟩
      rw [hch]
      have hcommit := commitWord_getCell first.answer (Crossword.createEmptyGrid 15) 7
        (max 0 (Int.fdiv (15 - (first.answer.length : Int)) 2)) 0 1
        (by
          intro row hrow
          simp only [Crossword.createEmptyGrid] at hrow ⊢
          rcases List.mem_replicate.mp hrow with ⟨-, rfl⟩
          simp)
        (by
          intro i2 hi2
          simp only [Crossword.createEmptyGrid, List.length_replicate]
          rw [hfd]
          omega)
        (by
          intro i2 j2 hi2 hj2 hne2
          exact allDirections_step_injective (by simp [allDirections]) _ _ hne2)
        i hi
      have hpos1 : (7 : Int) + 0 * (i : Int) = 7 := by ring
      have hpos2 : max 0 (Int.fdiv (15 - (first.answer.length : Int)) 2) + 1 * (i : Int) =
          max 0 (Int.fdiv (15 - (first.answer.length : Int)) 2) + (i : Int) := by ring
      rw [hpos1, hpos2, hch] at hcommit
      exact Crossword.placeRest_preserves rest _ 7 _ ch hcommit

/-- Witness for the amended C6 at a concrete one-entry list. -/
theorem claim_C6_witness :
    ∃ first rest,
      Crossword.sortEntries (shuffleArray [(⟨0, ['C', 'A', 'T'], "pet", false, none, none,
          none⟩ : Crossword.Entry)] []) = first :: rest ∧
      (∀ e ∈ [(⟨0, ['C', 'A', 'T'], "pet", false, none, none, none⟩ : Crossword.Entry)],
        e.answer.length ≤ first.answer.length) ∧
      (Crossword.generateCrossword [⟨0, ['C', 'A', 'T'], "pet", false, none, none, none⟩]
          []).entries.head? =
        some { first with
                placed := true
                row := some 7
                col := some (max 0 (Int.fdiv (15 - (first.answer.length : Int)) 2))
                direction := some Crossword.Direction.across } ∧
      (first.answer.length ≤ 15 →
        ∀ i : Nat, i < first.answer.length →
          getCell (Crossword.generateCrossword [⟨0, ['C', 'A', 'T'], "pet", false, none, none,
              none⟩] []).grid 7
              (max 0 (Int.fdiv (15 - (first.answer.length : Int)) 2) + i) =
            first.answer[i]?) :=
  claim_C6.2 [⟨0, ['C', 'A', 'T'], "pet", false, none, none, none⟩] [] (by decide)


/-- C7: in the crossword numbering pass over any square grid, a cell
receives a number exactly when it is filled and starts-across or
starts-down holds there (incrementing the counter once even when both
hold), and the numbers, read in row-major scan order, are exactly
1, 2, 3, … with no gaps or repeats. -/
theorem claim_C7 (g : Grid) (es : List Crossword.Entry) (hsq : Square g) :
    (∀ r c : Nat, r < g.length → c < g.length →
      ((∃ n, Crossword.getNumN (Crossword.numberAndBuildClues g es).numbers r c = some n) ↔
        (getCellN g r c ≠ none ∧
          (Crossword.startsAcrossB g r c = true ∨ Crossword.startsDownB g r c = true)))) ∧
    ((Crossword.rowMajor g.length).filterMap
        (fun p => Crossword.getNumN (Crossword.numberAndBuildClues g es).numbers p.1 p.2) =
      List.range' 1 ((Crossword.rowMajor g.length).countP (Crossword.cellStarts g))) := by
  constructor
  · intro r c hr hc
    have h1 := Crossword.numberAndBuildClues_getNum g es (r, c)
    rw [h1]
    rw [Crossword.lookupPos_isSome_iff_numAssign g (Crossword.rowMajor g.length) 1 (r, c)]
    constructor
    · rintro ⟨-, hcs⟩
      simpa [Crossword.cellStarts] using hcs
    · rintro ⟨h2, h3⟩
      refine ⟨Crossword.mem_rowMajor.mpr ⟨hr, hc⟩, ?_⟩
      simpa [Crossword.cellStarts] using ⟨h2, h3⟩
  · exact Crossword.numberAndBuildClues_filterMap g es

/-- Witness for C7 at a concrete 2 × 2 grid with one numbered cell. -/
theorem claim_C7_witness :
    (((∃ n, Crossword.getNumN
        (Crossword.numberAndBuildClues [[some 'A', some 'B'], [some 'C', none]] []).numbers
          0 0 = some n) ↔
      (getCellN ([[some 'A', some 'B'], [some 'C', none]] : Grid) 0 0 ≠ none ∧
        (Crossword.startsAcrossB [[some 'A', some 'B'], [some 'C', none]] 0 0 = true ∨
          Crossword.startsDownB [[some 'A', some 'B'], [some 'C', none]] 0 0 = true)))) ∧
    ((Crossword.rowMajor ([[some 'A', some 'B'], [some 'C', none]] : Grid).length).filterMap
        (fun p => Crossword.getNumN
          (Crossword.numberAndBuildClues [[some 'A', some 'B'], [some 'C', none]] []).numbers
            p.1 p.2) =
      List.range' 1
        ((Crossword.rowMajor ([[some 'A', some 'B'], [some 'C', none]] : Grid).length).countP
          (Crossword.cellStarts [[some 'A', some 'B'], [some 'C', none]]))) :=
  ⟨(claim_C7 [[some 'A', some 'B'], [some 'C', none]] []
      (by unfold Square; decide)).1 0 0 (by decide) (by decide),
   (claim_C7 [[some 'A', some 'B'], [some 'C', none]] []
      (by unfold Square; decide)).2⟩


/-- C8: `generateBingoGrid` throws — producing no grid — exactly when
fewer than 24 = 25 - 1 non-blank trimmed candidate words remain after
cleaning, and the error message states the required minimum count of
24 words. -/
theorem claim_C8 (raw : List (List Char)) (js : List Nat) :
    ((∃ msg, Bingo.generateBingoGrid raw js = Except.error msg) ↔
      (Bingo.cleanedBingoWords raw).length < 24) ∧
    (∀ msg, Bingo.generateBingoGrid raw js = Except.error msg →
      msg = Bingo.tooFewWordsMsg) := by
  simp only [Bingo.generateBingoGrid]
  by_cases h : (Bingo.cleanedBingoWords raw).length < 5 * 5 - 1
  · rw [if_pos h]
    refine ⟨⟨fun _ => by omega, fun _ => ⟨Bingo.tooFewWordsMsg, rfl⟩⟩, ?_⟩
    intro msg hmsg
    exact (Except.error.inj hmsg).symm
  · rw [if_neg h]
    refine ⟨⟨?_, ?_⟩, ?_⟩
    · rintro ⟨msg, hmsg⟩
      cases hmsg
    · intro hlt
      exact absurd hlt (by omega)
    · intro msg hmsg
      cases hmsg

/-- Witness for C8: the empty word list yields the error with the
stated message. -/
theorem claim_C8_witness :
    (∃ msg, Bingo.generateBingoGrid [] [] = Except.error msg) ∧
    Bingo.tooFewWordsMsg = Bingo.tooFewWordsMsg :=
  ⟨(claim_C8 [] []).1.mpr (by decide),
   (claim_C8 [] []).2 Bingo.tooFewWordsMsg (by rfl)⟩

/-- C9: with at least 24 cleaned words `generateBingoGrid` returns a
5 × 5 grid whose center cell (2, 2) is exactly the FREE marker and
whose other 24 cells, row major skipping the center, are the first 24
words of the shuffle of the full pool; with exactly 24 usable words
those 24 cells are a permutation of the cleaned input words. -/
theorem claim_C9 (raw : List (List Char)) (js : List Nat)
    (h24 : 24 ≤ (Bingo.cleanedBingoWords raw).length) :
    ∃ grid, Bingo.generateBingoGrid raw js = Except.ok grid ∧
      grid.length = 5 ∧ (∀ row ∈ grid, row.length = 5) ∧
      gridGet? grid 2 2 = some Bingo.freeCell ∧
      grid.flatten.eraseIdx 12 =
        (shuffleArray (Bingo.cleanedBingoWords raw) js).take 24 ∧
      ((Bingo.cleanedBingoWords raw).length = 24 →
        (grid.flatten.eraseIdx 12).Perm (Bingo.cleanedBingoWords raw)) := by
  have hshlen : (shuffleArray (Bingo.cleanedBingoWords raw) js).length =
      (Bingo.cleanedBingoWords raw).length := length_shuffleArray ..
  have hsellen : ((shuffleArray (Bingo.cleanedBingoWords raw) js).take 24).length = 24 := by
    rw [List.length_take]
    omega
  have hsplit : Crossword.rowMajor 5 =
      ((Crossword.rowMajor 5).take 12) ++ ((2, 2) :: (Crossword.rowMajor 5).drop 13) := by
    decide
  have hB : ((2 : Nat), (2 : Nat)) ∉ (Crossword.rowMajor 5).take 12 := by decide
  have hA : ((2 : Nat), (2 : Nat)) ∉ (Crossword.rowMajor 5).drop 13 := by decide
  have hBlen : ((Crossword.rowMajor 5).take 12).length = 12 := by decide
  have hAlen : ((Crossword.rowMajor 5).drop 13).length = 12 := by decide
  have hfull : Bingo.bingoFill ((shuffleArray (Bingo.cleanedBingoWords raw) js).take 24)
        (Crossword.rowMajor 5) 0 =
      ((shuffleArray (Bingo.cleanedBingoWords raw) js).take 24).take 12 ++
        Bingo.freeCell ::
          (((shuffleArray (Bingo.cleanedBingoWords raw) js).take 24).drop 12).take 12 := by
    rw [hsplit, Bingo.bingoFill_append _ _ _ _ hB, hBlen]
    rw [show Bingo.bingoFill ((shuffleArray (Bingo.cleanedBingoWords raw) js).take 24)
          ((2, 2) :: (Crossword.rowMajor 5).drop 13) (0 + 12) =
        Bingo.freeCell :: Bingo.bingoFill
          ((shuffleArray (Bingo.cleanedBingoWords raw) js).take 24)
          ((Crossword.rowMajor 5).drop 13) (0 + 12) from by
      rw [Bingo.bingoFill, if_pos ⟨rfl, rfl⟩]]
    rw [Bingo.bingoFill_noCenter _ _ _ hB, Bingo.bingoFill_noCenter _ _ _ hA]
    rw [hBlen, hAlen]
    rw [Bingo.map_getD_range_off _ 0 12 (by omega), Bingo.map_getD_range_off _ 12 12 (by omega)]
    rw [List.drop_zero]
  refine ⟨Bingo.toRows (Bingo.bingoFill
      ((shuffleArray (Bingo.cleanedBingoWords raw) js).take 24)
      (Crossword.rowMajor 5) 0), ?_, ?_, ?_, ?_, ?_, ?_⟩
  · simp only [Bingo.generateBingoGrid]
    rw [if_neg (by omega)]
  · rfl
  · intro row hrow
    have hfl : (Bingo.bingoFill ((shuffleArray (Bingo.cleanedBingoWords raw) js).take 24)
        (Crossword.rowMajor 5) 0).length = 25 := by
      rw [hfull]
      simp only [List.length_append, List.length_cons, List.length_take, List.length_drop]
      omega
    simp only [Bingo.toRows, List.mem_cons, List.not_mem_nil, or_false] at hrow
    rcases hrow with rfl | rfl | rfl | rfl | rfl <;>
      simp only [List.length_take, List.length_drop, hfl] <;> omega
  · show (Bingo.toRows _)[2]?.bind (fun row => row[2]?) = some Bingo.freeCell
    rw [show (Bingo.toRows (Bingo.bingoFill
          ((shuffleArray (Bingo.cleanedBingoWords raw) js).take 24)
          (Crossword.rowMajor 5) 0))[2]? =
        some (((Bingo.bingoFill ((shuffleArray (Bingo.cleanedBingoWords raw) js).take 24)
          (Crossword.rowMajor 5) 0).drop 10).take 5) from rfl]
    rw [Option.some_bind]
    rw [List.getElem?_take]
    rw [if_pos (by omega)]
    rw [List.getElem?_drop]
    rw [hfull]
    rw [show (10 + 2 : Nat) = 12 from rfl]
    rw [List.getElem?_append_right (by
      rw [List.length_take]
      omega)]
    rw [show (12 - (((shuffleArray (Bingo.cleanedBingoWords raw) js).take 24).take 12).length)
        = 0 from by
      rw [List.length_take]
      omega]
    simp
  · have hfl : (Bingo.bingoFill ((shuffleArray (Bingo.cleanedBingoWords raw) js).take 24)
        (Crossword.rowMajor 5) 0).length = 25 := by
      rw [hfull]
      simp only [List.length_append, List.length_cons, List.length_take, List.length_drop]
      omega
    rw [Bingo.toRows_flatten _ hfl, hfull]
    have herase := eraseIdx_append_cons
      (((shuffleArray (Bingo.cleanedBingoWords raw) js).take 24).take 12) Bingo.freeCell
      ((((shuffleArray (Bingo.cleanedBingoWords raw) js).take 24).drop 12).take 12)
    rw [show ((((shuffleArray (Bingo.cleanedBingoWords raw) js).take 24).take 12)).length = 12
        from by rw [List.length_take]; omega] at herase
    rw [herase, ← List.take_add]
    norm_num
  · intro h24eq
    have hfl : (Bingo.bingoFill ((shuffleArray (Bingo.cleanedBingoWords raw) js).take 24)
        (Crossword.rowMajor 5) 0).length = 25 := by
      rw [hfull]
      simp only [List.length_append, List.length_cons, List.length_take, List.length_drop]
      omega
    rw [Bingo.toRows_flatten _ hfl, hfull]
    have herase := eraseIdx_append_cons
      (((shuffleArray (Bingo.cleanedBingoWords raw) js).take 24).take 12) Bingo.freeCell
      ((((shuffleArray (Bingo.cleanedBingoWords raw) js).take 24).drop 12).take 12)
    rw [show ((((shuffleArray (Bingo.cleanedBingoWords raw) js).take 24).take 12)).length = 12
        from by rw [List.length_take]; omega] at herase
    rw [herase, ← List.take_add]
    norm_num
    rw [List.take_take]
    norm_num
    rw [List.take_of_length_le (by omega)]
    exact shuffleArray_perm _ _

/-- Witness for C9 at a concrete pool of 24 one-letter words. -/
theorem claim_C9_witness :
    ∃ grid, Bingo.generateBingoGrid ((alphabet.take 24).map (fun c => [c])) [] =
        Except.ok grid ∧
      grid.length = 5 ∧ (∀ row ∈ grid, row.length = 5) ∧
      gridGet? grid 2 2 = some Bingo.freeCell ∧
      grid.flatten.eraseIdx 12 =
        (shuffleArray (Bingo.cleanedBingoWords ((alphabet.take 24).map (fun c => [c]))) []).take
          24 ∧
      ((Bingo.cleanedBingoWords ((alphabet.take 24).map (fun c => [c]))).length = 24 →
        (grid.flatten.eraseIdx 12).Perm
          (Bingo.cleanedBingoWords ((alphabet.take 24).map (fun c => [c])))) :=
  claim_C9 ((alphabet.take 24).map (fun c => [c])) [] (by decide)

end Claims

end TheBitList
